/-
Verification of the sigma-A estimation core of servalcat
(servalcat/xtal/sigmaa.py and servalcat/utils/maps.py) against its
natural-language specification.

The Python source is shallowly embedded: numpy arrays over a resolution
bin become Lean lists of per-reflection records, and the vectorised
formulas become per-reflection real/complex arithmetic over ℝ and ℂ.
The external special functions supplied by the gemmi library
(bessel_i1_over_i0, log_bessel_i0, log_cosh) are modelled by their
mathematical definitions: the modified Bessel power series I₀, I₁ and
log ∘ cosh.  scipy.optimize.minimize is modelled as an abstract
optimizer argument, since only the surrounding control flow belongs to
this repository.
-/
import Mathlib

noncomputable section

namespace Servalcat

/-- Modified Bessel function of the first kind, order 0, as its power
series.  Models the value computed by `gemmi.bessel_i1_over_i0` /
`gemmi.log_bessel_i0` (external library functions used by sigmaa.py). -/
def besselI0 (x : ℝ) : ℝ :=
  tsum (fun k : ℕ => (x / 2) ^ (2 * k) / ((Nat.factorial k : ℝ)) ^ 2)

/-- Modified Bessel function of the first kind, order 1, as its power
series. -/
def besselI1 (x : ℝ) : ℝ :=
  tsum (fun k : ℕ => (x / 2) ^ (2 * k + 1) /
    ((Nat.factorial k : ℝ) * (Nat.factorial (k + 1) : ℝ)))

/-- Model of `gemmi.bessel_i1_over_i0`: the ratio I₁(x)/I₀(x). -/
def bessel_i1_over_i0 (x : ℝ) : ℝ := besselI1 x / besselI0 x

/-- Model of `gemmi.log_bessel_i0`: ln I₀(x). -/
def log_bessel_i0 (x : ℝ) : ℝ := Real.log (besselI0 x)

/-- Model of `gemmi.log_cosh`: ln cosh(x) (gemmi evaluates it in a
numerically stable rearrangement that is mathematically ln ∘ cosh). -/
def log_cosh (x : ℝ) : ℝ := Real.log (Real.cosh x)

/-- One reflection record of `hkldata.df` in sigmaa.py: observed
amplitude `FP`, its sigma `SIGFP`, symmetry factor `epsilon`, the
centric flag, the partial calculated structure factors `FC0..FCn-1`
(as the list `fcs`), and the `FC` column that `main` fills with the
sum of the partials (sigmaa.py lines 314-317). -/
structure Refl where
  FP : ℝ
  SIGFP : ℝ
  epsilon : ℝ
  centric : Bool
  fcs : List ℂ
  FC : ℂ

/-- `main`, sigmaa.py lines 314-317: `FC = 0j; for i: FC += FC{i}` —
the total calculated structure factor column, the unweighted sum of
all partials. -/
def totalFC (fcs : List ℂ) : ℂ := fcs.foldl (fun a b => a + b) 0

/-- `calc_abs_sum_Fc` inner sum: `Fc = Fcs[0]; for i in 1..: Fc += Ds[i]*Fcs[i]`. -/
def calc_sum_Fc (Ds : List ℝ) (fcs : List ℂ) : ℂ :=
  fcs.headD 0 + (List.zipWith (fun (d : ℝ) (f : ℂ) => (d : ℂ) * f) Ds.tail fcs.tail).sum

/-- `calc_abs_sum_Fc(Ds, Fcs)` of sigmaa.py (per reflection). -/
def calc_abs_sum_Fc (Ds : List ℝ) (fcs : List ℂ) : ℝ :=
  Complex.abs (calc_sum_Fc Ds fcs)

/-- `deriv_DFc2_and_DFc_dDj(Ds, Fcs)` of sigmaa.py (per reflection):
the list over j of (d/dDj of (D|Fc|)², d/dDj of D|Fc|). -/
def deriv_DFc2_and_DFc_dDj (Ds : List ℝ) (fcs : List ℂ) : List (ℝ × ℝ) :=
  let Fc := calc_sum_Fc Ds fcs;
  let a := Complex.abs Fc;
  (2 * Ds.headD 0 * a ^ 2, a) ::
    (List.range (Ds.length - 1)).map (fun j =>
      let rsq := 2 * (fcs.getD (j + 1) 0 * (starRingEnd ℂ) Fc).re;
      ((Ds.headD 0) ^ 2 * rsq, Ds.headD 0 * 0.5 / a * rsq))

/-- `fom_acentric` of sigmaa.py with the Bessel ratio abstracted. -/
def fom_acentricG (i1i0 : ℝ → ℝ) (Fo varFo : ℝ) (fcs : List ℂ)
    (Ds : List ℝ) (S epsilon : ℝ) : ℝ :=
  let Sigma := 2 * varFo + epsilon * S;
  i1i0 (2 * Fo * Ds.headD 0 * calc_abs_sum_Fc Ds fcs / Sigma)

/-- `fom_acentric(Fo, varFo, Fcs, Ds, S, epsilon)` of sigmaa.py. -/
def fom_acentric (Fo varFo : ℝ) (fcs : List ℂ) (Ds : List ℝ) (S epsilon : ℝ) : ℝ :=
  fom_acentricG bessel_i1_over_i0 Fo varFo fcs Ds S epsilon

/-- `fom_centric(Fo, varFo, Fcs, Ds, S, epsilon)` of sigmaa.py. -/
def fom_centric (Fo varFo : ℝ) (fcs : List ℂ) (Ds : List ℝ) (S epsilon : ℝ) : ℝ :=
  let Sigma := varFo + epsilon * S;
  Real.tanh (Fo * Ds.headD 0 * calc_abs_sum_Fc Ds fcs / Sigma)

/-- `mlf_acentric` of sigmaa.py (per reflection), with ln I₀ abstracted. -/
def mlf_acentricG (logI0 : ℝ → ℝ) (Fo varFo : ℝ) (fcs : List ℂ)
    (Ds : List ℝ) (S epsilon : ℝ) : ℝ :=
  let Sigma := 2 * varFo + epsilon * S;
  let DFc := Ds.headD 0 * calc_abs_sum_Fc Ds fcs;
  -(Real.log 2 + Real.log Fo - Real.log Sigma - (Fo ^ 2 + DFc ^ 2) / Sigma
    + logI0 (2 * Fo * DFc / Sigma))

/-- `mlf_acentric(Fo, varFo, Fcs, Ds, S, epsilon)` of sigmaa.py. -/
def mlf_acentric (Fo varFo : ℝ) (fcs : List ℂ) (Ds : List ℝ) (S epsilon : ℝ) : ℝ :=
  mlf_acentricG log_bessel_i0 Fo varFo fcs Ds S epsilon

/-- `mlf_centric(Fo, varFo, Fcs, Ds, S, epsilon)` of sigmaa.py. -/
def mlf_centric (Fo varFo : ℝ) (fcs : List ℂ) (Ds : List ℝ) (S epsilon : ℝ) : ℝ :=
  let Sigma := varFo + epsilon * S;
  let DFc := Ds.headD 0 * calc_abs_sum_Fc Ds fcs;
  -(0.5 * (Real.log (2 / Real.pi) - Real.log Sigma)
    - 0.5 * (Fo ^ 2 + DFc ^ 2) / Sigma + log_cosh (Fo * DFc / Sigma))

/-- `deriv_mlf_wrt_D_S_acentric` of sigmaa.py, per reflection, with the
Bessel ratio abstracted.  The source builds `deriv[i] = -numpy.sum(expr)`
over the bin; here the minus sign is kept per reflection and the bin
level sums componentwise, which is the same number. -/
def deriv_mlf_acentricG (i1i0 : ℝ → ℝ) (Fo varFo : ℝ) (fcs : List ℂ)
    (Ds : List ℝ) (S epsilon : ℝ) : List ℝ :=
  let Sigma := 2 * varFo + epsilon * S;
  let tmp := deriv_DFc2_and_DFc_dDj Ds fcs;
  let DFc := Ds.headD 0 * (tmp.headD (0, 0)).2;
  let m := i1i0 (2 * Fo * DFc / Sigma);
  tmp.map (fun p => -(-p.1 / Sigma + m * 2 * Fo * p.2 / Sigma)) ++
    [-((-1 / Sigma + (Fo ^ 2 + DFc ^ 2 - m * 2 * Fo * DFc) / Sigma ^ 2) * epsilon)]

/-- `deriv_mlf_wrt_D_S_centric` of sigmaa.py, per reflection. -/
def deriv_mlf_centric (Fo varFo : ℝ) (fcs : List ℂ)
    (Ds : List ℝ) (S epsilon : ℝ) : List ℝ :=
  let Sigma := varFo + epsilon * S;
  let tmp := deriv_DFc2_and_DFc_dDj Ds fcs;
  let DFc := Ds.headD 0 * (tmp.headD (0, 0)).2;
  let tanh_x := Real.tanh (Fo * DFc / Sigma);
  tmp.map (fun p => -(-0.5 * p.1 / Sigma + tanh_x * Fo * p.2 / Sigma)) ++
    [-((-0.5 / Sigma + (0.5 * (Fo ^ 2 + DFc ^ 2) - tanh_x * Fo * DFc) / Sigma ^ 2) * epsilon)]

/-- The acentric part of `mlf`: `numpy.sum(mlf_acentric(...))` over one
centric-class group of a bin. -/
def mlf_bin_acentricG (logI0 : ℝ → ℝ) (refls : List Refl) (Ds : List ℝ) (S : ℝ) : ℝ :=
  (refls.map (fun r => mlf_acentricG logI0 r.FP (r.SIGFP ^ 2) r.fcs Ds S r.epsilon)).sum

/-- The centric part of `mlf` over one group. -/
def mlf_bin_centric (refls : List Refl) (Ds : List ℝ) (S : ℝ) : ℝ :=
  (refls.map (fun r => mlf_centric r.FP (r.SIGFP ^ 2) r.fcs Ds S r.epsilon)).sum

/-- `mlf(df, Ds, S)` of sigmaa.py: the per-bin loss, grouping the bin's
reflections by the centric flag and summing the per-class values. -/
def mlf (df : List Refl) (Ds : List ℝ) (S : ℝ) : ℝ :=
  mlf_bin_acentricG log_bessel_i0 (df.filter (fun r => r.centric == false)) Ds S +
    mlf_bin_centric (df.filter (fun r => r.centric == true)) Ds S

/-- `deriv_mlf_wrt_D_S_acentric` summed over a class group: component j
of the gradient vector is `-numpy.sum(...)` over the group's reflections. -/
def deriv_mlf_wrt_D_S_acentricG (i1i0 : ℝ → ℝ) (refls : List Refl)
    (Ds : List ℝ) (S : ℝ) : List ℝ :=
  (List.range (Ds.length + 1)).map (fun j =>
    (refls.map (fun r =>
      (deriv_mlf_acentricG i1i0 r.FP (r.SIGFP ^ 2) r.fcs Ds S r.epsilon).getD j 0)).sum)

/-- `deriv_mlf_wrt_D_S_centric` summed over a class group. -/
def deriv_mlf_wrt_D_S_centric (refls : List Refl) (Ds : List ℝ) (S : ℝ) : List ℝ :=
  (List.range (Ds.length + 1)).map (fun j =>
    (refls.map (fun r =>
      (deriv_mlf_centric r.FP (r.SIGFP ^ 2) r.fcs Ds S r.epsilon).getD j 0)).sum)

/-- `deriv_mlf_wrt_D_S(df, Ds, S)` of sigmaa.py: the two class
contributions added componentwise. -/
def deriv_mlf_wrt_D_S (df : List Refl) (Ds : List ℝ) (S : ℝ) : List ℝ :=
  List.zipWith (fun a b => a + b)
    (deriv_mlf_wrt_D_S_acentricG bessel_i1_over_i0
      (df.filter (fun r => r.centric == false)) Ds S)
    (deriv_mlf_wrt_D_S_centric (df.filter (fun r => r.centric == true)) Ds S)

/-! ## Spec-side formulas (§4.2 of the spec) and claim C1 -/

/-- Spec §4.2, written from the spec's words: `DFc = D₀·|Fc₀ + D₁·Fc₁ + D₂·Fc₂ + …|`. -/
def spec_DFc (Ds : List ℝ) (fcs : List ℂ) : ℝ :=
  Ds.headD 0 *
    Complex.abs (fcs.headD 0 +
      (List.zipWith (fun (d : ℝ) (f : ℂ) => (d : ℂ) * f) Ds.tail fcs.tail).sum)

/-- Spec §4.2 acentric: `Σ = 2·varFo + epsilon·S`; log-likelihood
`ln2 + lnFo − lnΣ − (Fo²+DFc²)/Σ + ln I₀(2·Fo·DFc/Σ)`. -/
def spec_ll_acentric (Fo varFo : ℝ) (fcs : List ℂ) (Ds : List ℝ) (S epsilon : ℝ) : ℝ :=
  let Sigma := 2 * varFo + epsilon * S;
  let DFc := spec_DFc Ds fcs;
  Real.log 2 + Real.log Fo - Real.log Sigma - (Fo ^ 2 + DFc ^ 2) / Sigma
    + log_bessel_i0 (2 * Fo * DFc / Sigma)

/-- Spec §4.2 centric: `Σ = varFo + epsilon·S`; log-likelihood
`0.5·(ln2 − lnπ − lnΣ) − 0.5·(Fo²+DFc²)/Σ + ln cosh(Fo·DFc/Σ)`. -/
def spec_ll_centric (Fo varFo : ℝ) (fcs : List ℂ) (Ds : List ℝ) (S epsilon : ℝ) : ℝ :=
  let Sigma := varFo + epsilon * S;
  let DFc := spec_DFc Ds fcs;
  0.5 * (Real.log 2 - Real.log Real.pi - Real.log Sigma)
    - 0.5 * (Fo ^ 2 + DFc ^ 2) / Sigma + log_cosh (Fo * DFc / Sigma)

/-- The per-reflection log-likelihood selected by the centric flag. -/
def spec_ll (r : Refl) (Ds : List ℝ) (S : ℝ) : ℝ :=
  if r.centric then spec_ll_centric r.FP (r.SIGFP ^ 2) r.fcs Ds S r.epsilon
  else spec_ll_acentric r.FP (r.SIGFP ^ 2) r.fcs Ds S r.epsilon

theorem sum_map_filter_centric (l : List Refl) (f : Refl → ℝ) :
    ((l.filter (fun r => r.centric == false)).map f).sum +
      ((l.filter (fun r => r.centric == true)).map f).sum = (l.map f).sum := by
  induction l with
  | nil => simp
  | cons a l ih =>
    simp at ih
    cases h : a.centric <;> simp [List.filter_cons, h] <;> linarith [ih]

theorem sum_map_neg (l : List Refl) (g : Refl → ℝ) :
    (l.map (fun r => -(g r))).sum = -((l.map g).sum) := by
  induction l with
  | nil => simp
  | cons a l ih => simp [ih]; ring

theorem mlf_acentric_eq_neg_ll (Fo varFo : ℝ) (fcs : List ℂ) (Ds : List ℝ)
    (S epsilon : ℝ) :
    mlf_acentricG log_bessel_i0 Fo varFo fcs Ds S epsilon =
      -(spec_ll_acentric Fo varFo fcs Ds S epsilon) := by
  simp only [mlf_acentricG, spec_ll_acentric, spec_DFc, calc_abs_sum_Fc, calc_sum_Fc]

theorem mlf_centric_eq_neg_ll (Fo varFo : ℝ) (fcs : List ℂ) (Ds : List ℝ)
    (S epsilon : ℝ) :
    mlf_centric Fo varFo fcs Ds S epsilon =
      -(spec_ll_centric Fo varFo fcs Ds S epsilon) := by
  simp only [mlf_centric, spec_ll_centric, spec_DFc, calc_abs_sum_Fc, calc_sum_Fc]
  rw [Real.log_div two_ne_zero (ne_of_gt Real.pi_pos)]

/-- C1.  The per-bin loss `mlf` equals the negative sum, over the bin's
reflections, of the per-reflection log-likelihoods of the spec: the
acentric class uses Σ = 2·varFo + ε·S and
ln2 + lnFo − lnΣ − (Fo²+DFc²)/Σ + ln I₀(2·Fo·DFc/Σ), the centric class
uses Σ = varFo + ε·S and
0.5·(ln2 − lnπ − lnΣ) − 0.5·(Fo²+DFc²)/Σ + ln cosh(Fo·DFc/Σ), with
DFc = D₀·|Fc₀ + D₁·Fc₁ + …|. -/
theorem C1_mlf_is_neg_sum_loglik (df : List Refl) (Ds : List ℝ) (S : ℝ) :
    mlf df Ds S = -((df.map (fun r => spec_ll r Ds S)).sum) := by
  unfold mlf mlf_bin_acentricG mlf_bin_centric
  have hac : ((df.filter (fun r => r.centric == false)).map
      (fun r => mlf_acentricG log_bessel_i0 r.FP (r.SIGFP ^ 2) r.fcs Ds S r.epsilon)) =
      ((df.filter (fun r => r.centric == false)).map (fun r => -(spec_ll r Ds S))) := by
    apply List.map_congr_left
    intro r hr
    have hc : r.centric = false := by
      have := (List.mem_filter.mp hr).2
      simpa using this
    rw [mlf_acentric_eq_neg_ll, spec_ll, hc]
    simp
  have hce : ((df.filter (fun r => r.centric == true)).map
      (fun r => mlf_centric r.FP (r.SIGFP ^ 2) r.fcs Ds S r.epsilon)) =
      ((df.filter (fun r => r.centric == true)).map (fun r => -(spec_ll r Ds S))) := by
    apply List.map_congr_left
    intro r hr
    have hc : r.centric = true := by
      have := (List.mem_filter.mp hr).2
      simpa using this
    rw [mlf_centric_eq_neg_ll, spec_ll, hc]
    simp
  rw [hac, hce, sum_map_filter_centric df (fun r => -(spec_ll r Ds S)),
    sum_map_neg df (fun r => spec_ll r Ds S)]

/-! ## Map-coefficient / FOM synthesis (main's bin loop, sigmaa.py lines 352-380)
and claims C3, C4 -/

/-- One reflection's map-coefficient synthesis in `main`'s bin loop
(sigmaa.py lines 362-380), with the Bessel ratio abstracted:
`phic = numpy.angle(FC)`, `expip = cos(phic) + 1j*sin(phic)`,
`m = fom_func[c](...)`, `DFc = Ds[0]*calc_abs_sum_Fc(Ds, Fcs)`,
`DELFWT = (m*Fo - DFc)*expip`, and
`FWT = (2*m*Fo - DFc)*expip` if acentric else `(m*Fo)*expip`.
Returns (FWT, DELFWT, FOM). -/
def mapCoeffsG (i1i0 : ℝ → ℝ) (r : Refl) (Ds : List ℝ) (S : ℝ) : ℂ × ℂ × ℝ :=
  let phic := Complex.arg r.FC;
  let expip := ((Real.cos phic : ℝ) : ℂ) + ((Real.sin phic : ℝ) : ℂ) * Complex.I;
  let m := if r.centric then fom_centric r.FP (r.SIGFP ^ 2) r.fcs Ds S r.epsilon
    else fom_acentricG i1i0 r.FP (r.SIGFP ^ 2) r.fcs Ds S r.epsilon;
  let DFc := Ds.headD 0 * calc_abs_sum_Fc Ds r.fcs;
  let delfwt := ((m * r.FP - DFc : ℝ) : ℂ) * expip;
  let fwt := if r.centric then ((m * r.FP : ℝ) : ℂ) * expip
    else ((2 * m * r.FP - DFc : ℝ) : ℂ) * expip;
  (fwt, delfwt, m)

/-- The synthesis with the concrete Bessel ratio. -/
def mapCoeffs (r : Refl) (Ds : List ℝ) (S : ℝ) : ℂ × ℂ × ℝ :=
  mapCoeffsG bessel_i1_over_i0 r Ds S

/-- Spec §4.4: acentric FWT = (2·FOM·Fo − DFc)·e^(iφc),
centric FWT = (FOM·Fo)·e^(iφc). -/
def spec_FWT (centric : Bool) (FOM Fo DFc phic : ℝ) : ℂ :=
  if centric then ((FOM * Fo : ℝ) : ℂ) * Complex.exp ((phic : ℂ) * Complex.I)
  else ((2 * FOM * Fo - DFc : ℝ) : ℂ) * Complex.exp ((phic : ℂ) * Complex.I)

/-- Spec §4.4: DELFWT = (FOM·Fo − DFc)·e^(iφc) for both classes. -/
def spec_DELFWT (FOM Fo DFc phic : ℝ) : ℂ :=
  ((FOM * Fo - DFc : ℝ) : ℂ) * Complex.exp ((phic : ℂ) * Complex.I)

/-- Spec §4.4's "combined calculated structure factor Σ Dₖ·Fcₖ"
(the claimed source of the phase φc). -/
def spec_weighted_Fc (Ds : List ℝ) (fcs : List ℂ) : ℂ :=
  (List.zipWith (fun (d : ℝ) (f : ℂ) => (d : ℂ) * f) Ds fcs).sum

theorem expip_eq_exp (t : ℝ) :
    ((Real.cos t : ℝ) : ℂ) + ((Real.sin t : ℝ) : ℂ) * Complex.I =
      Complex.exp ((t : ℂ) * Complex.I) := by
  rw [Complex.exp_mul_I, Complex.ofReal_cos, Complex.ofReal_sin]

theorem mapCoeffsG_eq_spec (i1i0 : ℝ → ℝ) (r : Refl) (Ds : List ℝ) (S : ℝ) :
    (mapCoeffsG i1i0 r Ds S).1 =
      spec_FWT r.centric (mapCoeffsG i1i0 r Ds S).2.2 r.FP
        (Ds.headD 0 * calc_abs_sum_Fc Ds r.fcs) (Complex.arg r.FC) ∧
    (mapCoeffsG i1i0 r Ds S).2.1 =
      spec_DELFWT (mapCoeffsG i1i0 r Ds S).2.2 r.FP
        (Ds.headD 0 * calc_abs_sum_Fc Ds r.fcs) (Complex.arg r.FC) := by
  cases hc : r.centric <;>
    simp only [mapCoeffsG, spec_FWT, spec_DELFWT, hc, if_true, if_false,
      Bool.false_eq_true, expip_eq_exp] <;> exact ⟨trivial, trivial⟩

/-- C3.  For every reflection the synthesizer computes
FWT = (2·FOM·Fo − DFc)·e^(iφc) on the acentric branch and
FWT = (FOM·Fo)·e^(iφc) on the centric branch, and
DELFWT = (FOM·Fo − DFc)·e^(iφc) on both, with DFc = D₀·|Fc₀+D₁Fc₁+…|;
the acentric/centric asymmetry of FWT is exactly the two branches. -/
theorem C3_map_coefficient_formulas (r : Refl) (Ds : List ℝ) (S : ℝ) :
    (mapCoeffs r Ds S).1 =
      spec_FWT r.centric (mapCoeffs r Ds S).2.2 r.FP
        (Ds.headD 0 * calc_abs_sum_Fc Ds r.fcs) (Complex.arg r.FC) ∧
    (mapCoeffs r Ds S).2.1 =
      spec_DELFWT (mapCoeffs r Ds S).2.2 r.FP
        (Ds.headD 0 * calc_abs_sum_Fc Ds r.fcs) (Complex.arg r.FC) :=
  mapCoeffsG_eq_spec bessel_i1_over_i0 r Ds S

/-- C4, amended.  The phase φc used in FWT and DELFWT is the phase of the
`FC` column, which `main` fills with the UNWEIGHTED sum Σₖ Fcₖ of the
partial structure factors — not the D-weighted sum Σₖ Dₖ·Fcₖ. -/
theorem C4_phase_is_arg_unweighted_sum (r : Refl) (Ds : List ℝ) (S : ℝ)
    (hFC : r.FC = totalFC r.fcs) :
    (mapCoeffs r Ds S).1 =
      spec_FWT r.centric (mapCoeffs r Ds S).2.2 r.FP
        (Ds.headD 0 * calc_abs_sum_Fc Ds r.fcs) (Complex.arg (totalFC r.fcs)) ∧
    (mapCoeffs r Ds S).2.1 =
      spec_DELFWT (mapCoeffs r Ds S).2.2 r.FP
        (Ds.headD 0 * calc_abs_sum_Fc Ds r.fcs) (Complex.arg (totalFC r.fcs)) := by
  have h := mapCoeffsG_eq_spec bessel_i1_over_i0 r Ds S
  rw [hFC] at h
  exact h

/-- The concrete reflection used to separate the two phase conventions:
Fo = 0, partials Fc₀ = 1 and Fc₁ = i, FC = 1 + i as `main` computes it. -/
def exRefl4 : Refl := Refl.mk 0 1 1 false [1, Complex.I] (1 + Complex.I)

theorem C4_witness :
    exRefl4.FC = totalFC exRefl4.fcs ∧
    (mapCoeffs exRefl4 [1, 2] 1).2.1 =
      spec_DELFWT (mapCoeffs exRefl4 [1, 2] 1).2.2 exRefl4.FP
        (([1, 2] : List ℝ).headD 0 * calc_abs_sum_Fc [1, 2] exRefl4.fcs)
        (Complex.arg (totalFC exRefl4.fcs)) := by
  refine ⟨by simp [exRefl4, totalFC], ?_⟩
  exact (C4_phase_is_arg_unweighted_sum exRefl4 [1, 2] 1 (by simp [exRefl4, totalFC])).2

theorem C4_counterexample :
    ¬ ((mapCoeffs exRefl4 [1, 2] 1).2.1 =
      spec_DELFWT (mapCoeffs exRefl4 [1, 2] 1).2.2 exRefl4.FP
        (([1, 2] : List ℝ).headD 0 * calc_abs_sum_Fc [1, 2] exRefl4.fcs)
        (Complex.arg (spec_weighted_Fc [1, 2] exRefl4.fcs))) := by
  intro h
  have hw : spec_weighted_Fc [1, 2] exRefl4.fcs = 1 + 2*Complex.I := by
    simp [spec_weighted_Fc, exRefl4]
  have habs : calc_abs_sum_Fc [1, 2] exRefl4.fcs = Complex.abs (1 + 2*Complex.I) := by
    simp [calc_abs_sum_Fc, calc_sum_Fc, exRefl4]
  rw [hw, habs] at h
  simp only [mapCoeffs, mapCoeffsG, exRefl4, spec_DELFWT, habs, Bool.false_eq_true,
    if_false, List.headD, one_mul] at h
  rw [show calc_abs_sum_Fc [1, 2] [1, Complex.I] = Complex.abs (1 + 2*Complex.I) from by
    simp [calc_abs_sum_Fc, calc_sum_Fc]] at h
  have h5 : Complex.abs (1 + 2*Complex.I) = Real.sqrt 5 := by
    rw [Complex.abs_apply]; congr 1; simp [Complex.normSq_apply]; norm_num
  have h2 : Complex.abs (1 + Complex.I) = Real.sqrt 2 := by
    rw [Complex.abs_apply]; congr 1; simp [Complex.normSq_apply]; norm_num
  have hre := congrArg Complex.re h
  rw [Complex.exp_mul_I] at hre
  simp only [Complex.add_re, Complex.mul_re, Complex.ofReal_re, Complex.ofReal_im,
    Complex.I_re, Complex.I_im, Complex.mul_im, Complex.cos_ofReal_re, Complex.sin_ofReal_re] at hre
  rw [Complex.cos_arg (by simp [Complex.ext_iff] : (1+Complex.I : ℂ) ≠ 0)] at hre
  rw [Complex.cos_arg (show (1+2*Complex.I : ℂ) ≠ 0 by simp [Complex.ext_iff])] at hre
  rw [h5, h2] at hre
  simp at hre
  have hs2 : (0:ℝ) < Real.sqrt 2 := Real.sqrt_pos.mpr (by norm_num)
  have h52 : Real.sqrt 5 = Real.sqrt 2 := by
    field_simp at hre
    linarith
  have := (Real.sqrt_inj (by norm_num) (by norm_num)).mp h52
  norm_num at this

/-! ## Half-map noise / FSC estimator
(utils/maps.py, calc_noise_var_from_halfmaps) and claims C8, C10 -/

/-- One reciprocal-space coefficient of the half-map pipeline: its
resolution-bin index and the two half-map Fourier coefficients. -/
structure HalfRefl where
  bin : ℕ
  F_map1 : ℂ
  F_map2 : ℂ

/-- numpy mean of a complex array. -/
def cmean (xs : List ℂ) : ℂ := xs.sum / (xs.length : ℂ)

/-- Unnormalised complex cross-covariance Σ (x−mean x)·conj(y−mean y);
the 1/(n−1) of numpy.cov cancels in the correlation ratio. -/
def ccovSum (xs ys : List ℂ) : ℂ :=
  (List.zipWith (fun u v => (u - cmean xs) * (starRingEnd ℂ) (v - cmean ys)) xs ys).sum

/-- Model of `numpy.real(numpy.corrcoef(sel1, sel2)[1,0])` on complex
data: real part of the normalised cross-covariance. -/
def corrcoef_complex (xs ys : List ℂ) : ℝ :=
  (ccovSum ys xs).re /
    (Real.sqrt (ccovSum xs xs).re * Real.sqrt (ccovSum ys ys).re)

/-- Model of `numpy.var` on complex data: mean squared distance from the
mean. -/
def cvar (xs : List ℂ) : ℝ :=
  ((xs.map (fun z => Complex.normSq (z - cmean xs))).sum) / xs.length

/-- `F_map1[sel]` for `sel = (i_bin == hkldata.df.bin)` (maps.py lines
131-141). -/
def selF1 (df : List HalfRefl) (i : ℕ) : List ℂ :=
  (df.filter (fun r => r.bin == i)).map (fun r => r.F_map1)

/-- `F_map2[sel]`. -/
def selF2 (df : List HalfRefl) (i : ℕ) : List ℂ :=
  (df.filter (fun r => r.bin == i)).map (fun r => r.F_map2)

/-- The per-bin body of `calc_noise_var_from_halfmaps` (maps.py lines
141-153): a bin with fewer than 3 coefficients is skipped with a warning
(`none`); otherwise `fsc = Re(corrcoef(sel1,sel2)[1,0])`,
`varn = var(sel1-sel2)/4` and `FSCfull = 2*fsc/(1+fsc)`. -/
def calc_noise_var_bin (sel1 sel2 : List ℂ) : Option (ℝ × ℝ) :=
  if sel1.length < 3 then none
  else
    let fsc := corrcoef_complex sel1 sel2;
    let varn := cvar (List.zipWith (fun u v => u - v) sel1 sel2) / 4;
    some (varn, 2 * fsc / (1 + fsc))

/-- One iteration of the bin loop: on a skip the row list is untouched
and the warning (the bin id) is recorded; otherwise the bin row is
overwritten with the computed values. -/
def noise_step (df : List HalfRefl) (acc : List (ℕ × ℝ × ℝ) × List ℕ)
    (i : ℕ) : List (ℕ × ℝ × ℝ) × List ℕ :=
  match calc_noise_var_bin (selF1 df i) (selF2 df i) with
  | none => (acc.1, acc.2 ++ [i])
  | some p => (acc.1.map (fun row => if row.1 = i then (i, p) else row), acc.2)

/-- `calc_noise_var_from_halfmaps` (maps.py lines 117-154): the binned
columns var_noise and FSCfull are first initialised to 0.0 for every bin
(lines 127-128); the loop then fills the rows of bins with at least 3
coefficients and logs a warning for the others. -/
def calc_noise_var_from_halfmaps (df : List HalfRefl) (bins : List ℕ) :
    List (ℕ × ℝ × ℝ) × List ℕ :=
  bins.foldl (noise_step df) (bins.map (fun i => (i, 0, 0)), [])

/-- Spec §4.5 FSChalf: the Pearson correlation of the two complex
amplitude arrays. -/
def spec_FSChalf (sel1 sel2 : List ℂ) : ℝ := corrcoef_complex sel1 sel2

/-- Spec §4.5 noise variance: variance(map1 − map2)/4. -/
def spec_noise_var (sel1 sel2 : List ℂ) : ℝ :=
  cvar (List.zipWith (fun u v => u - v) sel1 sel2) / 4

/-- Spec §4.5: FSCfull = 2·FSChalf/(1 + FSChalf). -/
def spec_FSCfull (h : ℝ) : ℝ := 2 * h / (1 + h)

theorem calc_noise_var_bin_eq (sel1 sel2 : List ℂ) (h : ¬ sel1.length < 3) :
    calc_noise_var_bin sel1 sel2 =
      some (spec_noise_var sel1 sel2, spec_FSCfull (spec_FSChalf sel1 sel2)) := by
  simp [calc_noise_var_bin, h, spec_noise_var, spec_FSCfull, spec_FSChalf]

theorem lookup_map_update (rows : List (ℕ × ℝ × ℝ)) (i : ℕ) (p : ℝ × ℝ) :
    List.lookup i (rows.map (fun row => if row.1 = i then (i, p) else row)) =
      (List.lookup i rows).map (fun _ => p) := by
  induction rows with
  | nil => simp
  | cons a rows ih =>
    rcases a with ⟨k, v⟩
    by_cases h : k = i
    · subst h
      rw [List.map_cons, if_pos rfl]
      simp [List.lookup_cons]
    · rw [List.map_cons, if_neg h]
      have hbeq : (i == k) = false := beq_false_of_ne (Ne.symm h)
      simp only [List.lookup_cons, hbeq, ih]

theorem lookup_map_update_ne (rows : List (ℕ × ℝ × ℝ)) (i j : ℕ) (p : ℝ × ℝ)
    (hne : j ≠ i) :
    List.lookup j (rows.map (fun row => if row.1 = i then (i, p) else row)) =
      List.lookup j rows := by
  induction rows with
  | nil => simp
  | cons a rows ih =>
    rcases a with ⟨k, v⟩
    by_cases h : k = i
    · rw [List.map_cons]
      simp only [if_pos h]
      have h1 : (j == i) = false := beq_false_of_ne hne
      have h2 : (j == k) = false := beq_false_of_ne (h ▸ hne)
      simp only [List.lookup_cons, h1, h2, ih]
    · rw [List.map_cons]
      simp only [if_neg h]
      by_cases h3 : j = k
      · simp [List.lookup_cons, h3]
      · have h4 : (j == k) = false := beq_false_of_ne h3
        simp only [List.lookup_cons, h4, ih]

theorem noise_step_lookup_ne (df : List HalfRefl) (acc : List (ℕ × ℝ × ℝ) × List ℕ)
    (i j : ℕ) (hne : j ≠ i) :
    List.lookup j (noise_step df acc i).1 = List.lookup j acc.1 := by
  unfold noise_step
  cases calc_noise_var_bin (selF1 df i) (selF2 df i) with
  | none => rfl
  | some p => exact lookup_map_update_ne acc.1 i j p hne

theorem foldl_lookup_ne (df : List HalfRefl) (l : List ℕ)
    (acc : List (ℕ × ℝ × ℝ) × List ℕ) (i : ℕ) (hni : i ∉ l) :
    List.lookup i (l.foldl (noise_step df) acc).1 = List.lookup i acc.1 := by
  induction l generalizing acc with
  | nil => rfl
  | cons j l ih =>
    have h1 : i ≠ j := fun h => hni (h ▸ List.mem_cons_self j l)
    have h2 : i ∉ l := fun h => hni (List.mem_cons_of_mem j h)
    rw [List.foldl_cons, ih _ h2, noise_step_lookup_ne df acc j i h1]

theorem noise_step_warn_mono (df : List HalfRefl) (acc : List (ℕ × ℝ × ℝ) × List ℕ)
    (i w : ℕ) (hw : w ∈ acc.2) : w ∈ (noise_step df acc i).2 := by
  unfold noise_step
  cases calc_noise_var_bin (selF1 df i) (selF2 df i) with
  | none => exact List.mem_append_left _ hw
  | some p => exact hw

theorem foldl_warn_mono (df : List HalfRefl) (l : List ℕ)
    (acc : List (ℕ × ℝ × ℝ) × List ℕ) (w : ℕ) (hw : w ∈ acc.2) :
    w ∈ (l.foldl (noise_step df) acc).2 := by
  induction l generalizing acc with
  | nil => exact hw
  | cons j l ih =>
    rw [List.foldl_cons]
    exact ih _ (noise_step_warn_mono df acc j w hw)

theorem init_lookup (bins : List ℕ) (i : ℕ) (hi : i ∈ bins) :
    List.lookup i (bins.map (fun j => (j, ((0:ℝ), (0:ℝ))))) = some (0, 0) :=
  List.lookup_graph (fun _ => ((0:ℝ), (0:ℝ))) hi

theorem noise_step_some (df : List HalfRefl) (acc : List (ℕ × ℝ × ℝ) × List ℕ)
    (i : ℕ) (p : ℝ × ℝ)
    (h : calc_noise_var_bin (selF1 df i) (selF2 df i) = some p) :
    noise_step df acc i =
      (acc.1.map (fun row => if row.1 = i then (i, p) else row), acc.2) := by
  unfold noise_step
  rw [h]

theorem noise_step_none (df : List HalfRefl) (acc : List (ℕ × ℝ × ℝ) × List ℕ)
    (i : ℕ) (h : calc_noise_var_bin (selF1 df i) (selF2 df i) = none) :
    noise_step df acc i = (acc.1, acc.2 ++ [i]) := by
  unfold noise_step
  rw [h]

/-- C8.  For every bin with at least 3 coefficients the half-map
estimator stores (Pearson correlation of the two complex arrays as
FSChalf, noise variance = var(map1−map2)/4, FSCfull = 2·FSChalf/(1+FSChalf));
every bin with fewer than 3 coefficients is skipped with a warning. -/
theorem C8_halfmap_noise_and_fsc (df : List HalfRefl) (bins : List ℕ) (hnd : bins.Nodup) (i : ℕ)
    (hi : i ∈ bins) :
    (3 ≤ (selF1 df i).length →
      List.lookup i (calc_noise_var_from_halfmaps df bins).1 =
        some (spec_noise_var (selF1 df i) (selF2 df i),
          spec_FSCfull (spec_FSChalf (selF1 df i) (selF2 df i)))) ∧
    ((selF1 df i).length < 3 → i ∈ (calc_noise_var_from_halfmaps df bins).2) := by
  rcases List.append_of_mem hi with ⟨s, t, rfl⟩
  have hnis : i ∉ s := by
    rcases List.nodup_append.mp hnd with ⟨-, -, hdisj⟩
    exact fun h => hdisj h (List.mem_cons_self i t)
  have hnit : i ∉ t := by
    have h2 := hnd.sublist (List.sublist_append_right s (i :: t))
    exact (List.nodup_cons.mp h2).1
  unfold calc_noise_var_from_halfmaps
  rw [List.foldl_append, List.foldl_cons]
  have hinit : List.lookup i (((s ++ i :: t).map (fun j => (j, ((0:ℝ), (0:ℝ))))),
      ([] : List ℕ)).1 = some (0, 0) := init_lookup _ i hi
  have hs : List.lookup i ((s.foldl (noise_step df)
      (((s ++ i :: t).map (fun j => (j, ((0:ℝ), (0:ℝ))))), ([] : List ℕ)))).1 =
      some (0, 0) := by
    rw [foldl_lookup_ne df s _ i hnis]
    exact hinit
  constructor
  · intro hge
    have hnot : ¬ (selF1 df i).length < 3 := not_lt.mpr hge
    rw [foldl_lookup_ne df t _ i hnit,
      noise_step_some df _ i _ (calc_noise_var_bin_eq _ _ hnot)]
    rw [lookup_map_update, hs]
    rfl
  · intro hlt
    apply foldl_warn_mono
    rw [noise_step_none df _ i (by simp [calc_noise_var_bin, hlt])]
    simp

/-- C10.  var_noise and FSCfull are initialised to 0.0 for every bin
before the loop, and a bin skipped for having fewer than 3 coefficients
still has its row present in the output with exactly these zeros. -/
theorem C10_skipped_bin_keeps_zeros (df : List HalfRefl) (bins : List ℕ) (hnd : bins.Nodup) (i : ℕ)
    (hi : i ∈ bins) (hlt : (selF1 df i).length < 3) :
    List.lookup i (bins.map (fun j => (j, ((0:ℝ), (0:ℝ))))) = some (0, 0) ∧
    List.lookup i (calc_noise_var_from_halfmaps df bins).1 = some (0, 0) := by
  refine ⟨init_lookup bins i hi, ?_⟩
  rcases List.append_of_mem hi with ⟨s, t, rfl⟩
  have hnis : i ∉ s := by
    rcases List.nodup_append.mp hnd with ⟨-, -, hdisj⟩
    exact fun h => hdisj h (List.mem_cons_self i t)
  have hnit : i ∉ t := by
    have h2 := hnd.sublist (List.sublist_append_right s (i :: t))
    exact (List.nodup_cons.mp h2).1
  unfold calc_noise_var_from_halfmaps
  rw [List.foldl_append, List.foldl_cons, foldl_lookup_ne df t _ i hnit,
    noise_step_none df _ i (by simp [calc_noise_var_bin, hlt])]
  rw [foldl_lookup_ne df s _ i hnis]
  exact init_lookup _ i (List.mem_append_right s (List.mem_cons_self i t))


/-- Four half-map coefficients: three in bin 0, one in bin 1. -/
def exHalfDf : List HalfRefl :=
  [HalfRefl.mk 0 1 1, HalfRefl.mk 0 1 1, HalfRefl.mk 0 1 1, HalfRefl.mk 1 1 1]

theorem C8_witness :
    (3 ≤ (selF1 exHalfDf 0).length →
      List.lookup 0 (calc_noise_var_from_halfmaps exHalfDf [0, 1]).1 =
        some (spec_noise_var (selF1 exHalfDf 0) (selF2 exHalfDf 0),
          spec_FSCfull (spec_FSChalf (selF1 exHalfDf 0) (selF2 exHalfDf 0)))) ∧
    ((selF1 exHalfDf 0).length < 3 →
      0 ∈ (calc_noise_var_from_halfmaps exHalfDf [0, 1]).2) :=
  C8_halfmap_noise_and_fsc exHalfDf [0, 1] (by decide) 0 (by decide)

theorem C10_witness :
    List.lookup 1 (([0, 1] : List ℕ).map (fun j => (j, ((0:ℝ), (0:ℝ))))) = some (0, 0) ∧
    List.lookup 1 (calc_noise_var_from_halfmaps exHalfDf [0, 1]).1 = some (0, 0) :=
  C10_skipped_bin_keeps_zeros exHalfDf [0, 1] (by decide) 1 (by decide) (by decide)

/-! ## Bessel-series facts and claim C9 (FOM range) -/

theorem besselI0_term_nonneg (x : ℝ) (k : ℕ) :
    0 ≤ (x / 2) ^ (2 * k) / ((Nat.factorial k : ℝ)) ^ 2 := by
  apply div_nonneg
  · rw [pow_mul]
    positivity
  · positivity

theorem besselI0_summable (x : ℝ) :
    Summable (fun k : ℕ => (x / 2) ^ (2 * k) / ((Nat.factorial k : ℝ)) ^ 2) := by
  refine Summable.of_nonneg_of_le (besselI0_term_nonneg x) ?_
    (Real.summable_pow_div_factorial ((x / 2) ^ 2))
  intro k
  rw [← pow_mul]
  have h1 : (1 : ℝ) ≤ (Nat.factorial k : ℝ) := by
    exact_mod_cast Nat.one_le_iff_ne_zero.mpr (Nat.factorial_ne_zero k)
  have h2 : (0 : ℝ) < (Nat.factorial k : ℝ) := by positivity
  have h3 : (Nat.factorial k : ℝ) ≤ ((Nat.factorial k : ℝ)) ^ 2 := by nlinarith
  have h4 : (0 : ℝ) ≤ (x / 2) ^ (2 * k) := by rw [pow_mul]; positivity
  rw [pow_mul]
  exact div_le_div_of_nonneg_left (by rw [← pow_mul]; exact h4) h2 h3

theorem besselI1_term_nonneg (x : ℝ) (hx : 0 ≤ x) (k : ℕ) :
    0 ≤ (x / 2) ^ (2 * k + 1) / ((Nat.factorial k : ℝ) * (Nat.factorial (k + 1) : ℝ)) := by
  positivity

theorem one_le_besselI0 (x : ℝ) : 1 ≤ besselI0 x := by
  have h0 : (x / 2) ^ (2 * 0) / ((Nat.factorial 0 : ℝ)) ^ 2 = 1 := by simp
  calc (1:ℝ) = (x / 2) ^ (2 * 0) / ((Nat.factorial 0 : ℝ)) ^ 2 := h0.symm
    _ ≤ besselI0 x :=
        le_tsum (besselI0_summable x) 0 (fun j _ => besselI0_term_nonneg x j)

theorem besselI0_pos (x : ℝ) : 0 < besselI0 x := lt_of_lt_of_le one_pos (one_le_besselI0 x)

theorem besselI1_nonneg (x : ℝ) (hx : 0 ≤ x) : 0 ≤ besselI1 x :=
  tsum_nonneg (besselI1_term_nonneg x hx)

theorem besselI1_lt_besselI0 (x : ℝ) (hx : 0 ≤ x) : besselI1 x < besselI0 x := by
  set a : ℕ → ℝ := fun k => (x / 2) ^ (2 * k) / ((Nat.factorial k : ℝ)) ^ 2 with ha_def
  set b : ℕ → ℝ := fun k => (x / 2) ^ (2 * k + 1) /
    ((Nat.factorial k : ℝ) * (Nat.factorial (k + 1) : ℝ)) with hb_def
  have ha : Summable a := besselI0_summable x
  have ha2 : Summable (fun k => a (k + 1)) := (summable_nat_add_iff 1).mpr ha
  have hb2 : ∀ k, (b k) ^ 2 = a k * a (k + 1) := by
    intro k
    simp only [ha_def, hb_def]
    rw [div_pow, div_mul_div_comm]
    congr 1
    · rw [← pow_mul, ← pow_add]
      congr 1
      ring
    · rw [mul_pow]
  have hba : ∀ k, 2 * b k ≤ a k + a (k + 1) := by
    intro k
    have hbnn : 0 ≤ b k := besselI1_term_nonneg x hx k
    have hann : 0 ≤ a k := besselI0_term_nonneg x k
    have hann2 : 0 ≤ a (k + 1) := besselI0_term_nonneg x (k + 1)
    have hsq : (2 * b k) ^ 2 ≤ (a k + a (k + 1)) ^ 2 := by
      have hk := hb2 k
      nlinarith [sq_nonneg (a k - a (k + 1))]
    calc 2 * b k = Real.sqrt ((2 * b k) ^ 2) := (Real.sqrt_sq (by linarith)).symm
      _ ≤ Real.sqrt ((a k + a (k + 1)) ^ 2) := Real.sqrt_le_sqrt hsq
      _ = a k + a (k + 1) := Real.sqrt_sq (by linarith)
  have hb : Summable b := by
    refine Summable.of_nonneg_of_le (besselI1_term_nonneg x hx) ?_
      ((ha.add ha2).div_const 2)
    intro k
    have hk := hba k
    linarith
  have hsum : besselI1 x ≤ (besselI0 x + (besselI0 x - 1)) / 2 := by
    have h1 : besselI1 x ≤ tsum (fun k => (a k + a (k + 1)) / 2) := by
      apply tsum_le_tsum _ hb ((ha.add ha2).div_const 2)
      intro k
      linarith [hba k]
    have h2 : tsum (fun k => (a k + a (k + 1)) / 2) =
        (tsum a + tsum (fun k => a (k + 1))) / 2 := by
      rw [tsum_div_const, tsum_add ha ha2]
    have h3 : tsum a = a 0 + tsum (fun k => a (k + 1)) := tsum_eq_zero_add ha
    have h4 : a 0 = 1 := by simp [ha_def]
    have h5 : tsum (fun k => a (k + 1)) = besselI0 x - 1 := by
      have h6 : besselI0 x = tsum a := rfl
      rw [h6, h3, h4]
      ring
    have h6 : tsum a = besselI0 x := rfl
    calc besselI1 x ≤ tsum (fun k => (a k + a (k + 1)) / 2) := h1
      _ = (tsum a + tsum (fun k => a (k + 1))) / 2 := h2
      _ = (besselI0 x + (besselI0 x - 1)) / 2 := by rw [h5, h6]
  linarith

theorem tanh_nonneg_of_nonneg (y : ℝ) (hy : 0 ≤ y) : 0 ≤ Real.tanh y := by
  rw [Real.tanh_eq_sinh_div_cosh]
  exact div_nonneg (Real.sinh_nonneg_iff.mpr hy) (Real.cosh_pos y).le

theorem tanh_lt_one_all (y : ℝ) : Real.tanh y < 1 := by
  rw [Real.tanh_eq_sinh_div_cosh, div_lt_one (Real.cosh_pos y)]
  exact Real.sinh_lt_cosh y

/-- C9.  With Fo ≥ 0, DFc ≥ 0 and the respective Σ > 0, the acentric FOM
I₁(x)/I₀(x) at x = 2·Fo·DFc/Σ and the centric FOM tanh(Fo·DFc/Σ) both lie
in [0, 1). -/
theorem C9_fom_in_unit_interval (Fo varFo : ℝ) (fcs : List ℂ) (Ds : List ℝ)
    (S epsilon : ℝ) (hFo : 0 ≤ Fo)
    (hDFc : 0 ≤ Ds.headD 0 * calc_abs_sum_Fc Ds fcs)
    (hSa : 0 < 2 * varFo + epsilon * S) (hSc : 0 < varFo + epsilon * S) :
    (0 ≤ fom_acentric Fo varFo fcs Ds S epsilon ∧
      fom_acentric Fo varFo fcs Ds S epsilon < 1) ∧
    (0 ≤ fom_centric Fo varFo fcs Ds S epsilon ∧
      fom_centric Fo varFo fcs Ds S epsilon < 1) := by
  have hxa : 0 ≤ 2 * Fo * Ds.headD 0 * calc_abs_sum_Fc Ds fcs / (2 * varFo + epsilon * S) := by
    apply div_nonneg _ hSa.le
    have h : 2 * Fo * Ds.headD 0 * calc_abs_sum_Fc Ds fcs
        = 2 * Fo * (Ds.headD 0 * calc_abs_sum_Fc Ds fcs) := by ring
    rw [h]
    exact mul_nonneg (by linarith) hDFc
  have hxc : 0 ≤ Fo * Ds.headD 0 * calc_abs_sum_Fc Ds fcs / (varFo + epsilon * S) := by
    apply div_nonneg _ hSc.le
    have h : Fo * Ds.headD 0 * calc_abs_sum_Fc Ds fcs
        = Fo * (Ds.headD 0 * calc_abs_sum_Fc Ds fcs) := by ring
    rw [h]
    exact mul_nonneg hFo hDFc
  constructor
  · simp only [fom_acentric, fom_acentricG, bessel_i1_over_i0]
    constructor
    · exact div_nonneg (besselI1_nonneg _ hxa) (besselI0_pos _).le
    · rw [div_lt_one (besselI0_pos _)]
      exact besselI1_lt_besselI0 _ hxa
  · simp only [fom_centric]
    exact ⟨tanh_nonneg_of_nonneg _ hxc, tanh_lt_one_all _⟩

theorem C9_witness :
    (0 ≤ fom_acentric 0 1 [1] [1] 1 1 ∧ fom_acentric 0 1 [1] [1] 1 1 < 1) ∧
    (0 ≤ fom_centric 0 1 [1] [1] 1 1 ∧ fom_centric 0 1 [1] [1] 1 1 < 1) :=
  C9_fom_in_unit_interval 0 1 [1] [1] 1 1 (le_refl 0)
    (by norm_num [calc_abs_sum_Fc, calc_sum_Fc]) (by norm_num) (by norm_num)

/-! ## Per-bin initial parameter estimates (determine_mlf_params,
sigmaa.py lines 183-196) and claim C5 -/

/-- Arithmetic mean of a list (numpy mean). -/
def lmean (xs : List ℝ) : ℝ := xs.sum / xs.length

/-- Model of `numpy.corrcoef(xs, ys)[1,0]`: the Pearson correlation
coefficient (the 1/(n-1) normalisations of covariance and standard
deviations cancel in the ratio). -/
def corrcoef (xs ys : List ℝ) : ℝ :=
  (List.zipWith (fun u v => (u - lmean xs) * (v - lmean ys)) xs ys).sum /
    (Real.sqrt ((xs.map (fun u => (u - lmean xs) ^ 2)).sum) *
      Real.sqrt ((ys.map (fun v => (v - lmean ys) ^ 2)).sum))

/-- Model of `numpy.var`: population variance. -/
def lvar (xs : List ℝ) : ℝ :=
  ((xs.map (fun u => (u - lmean xs) ^ 2)).sum) / xs.length

/-- determine_mlf_params lines 191-194: on a bin,
`FC = numpy.abs(df.FC)` (the TOTAL structure-factor column), `FP = df.FP`,
`D = numpy.corrcoef(FP, FC)[1,0]`. -/
def initial_D (binRefls : List Refl) : ℝ :=
  corrcoef (binRefls.map (fun r => r.FP)) (binRefls.map (fun r => Complex.abs r.FC))

/-- determine_mlf_params line 195: `S = numpy.var(FP - D * FC)`. -/
def initial_S (binRefls : List Refl) : ℝ :=
  lvar (binRefls.map (fun r => r.FP - initial_D binRefls * Complex.abs r.FC))

/-- determine_mlf_params lines 184-195 with line 206's `x0 = Ds + [S]`:
the per-bin parameter vector (D, D1..Dn-1) and S before optimisation;
the D1..Dn-1 columns keep their initial value 1. -/
def initial_params (nmodels : ℕ) (binRefls : List Refl) : List ℝ × ℝ :=
  (initial_D binRefls :: List.replicate (nmodels - 1) 1, initial_S binRefls)

/-- Amended-spec formula: the Pearson correlation of Fo with the
amplitude of the TOTAL calculated structure factor Σₖ Fcₖ. -/
def spec_initial_D (binRefls : List Refl) : ℝ :=
  corrcoef (binRefls.map (fun r => r.FP))
    (binRefls.map (fun r => Complex.abs (totalFC r.fcs)))

/-- Amended-spec formula: variance of (Fo − D₀·|Σₖ Fcₖ|). -/
def spec_initial_S (binRefls : List Refl) : ℝ :=
  lvar (binRefls.map (fun r =>
    r.FP - spec_initial_D binRefls * Complex.abs (totalFC r.fcs)))

/-- C5, amended.  Before optimisation the per-bin initial guesses are:
D₀ = Pearson correlation of Fo with |Fc| where Fc is the TOTAL calculated
structure factor Σₖ Fcₖ (all partials summed, unweighted, bulk included) —
not |Fc₀| alone; Dₖ = 1.0 for k ≥ 1; and S = variance of (Fo − D₀·|Fc|). -/
theorem C5_initial_params_use_total_FC (nmodels : ℕ) (binRefls : List Refl)
    (hFC : ∀ r ∈ binRefls, r.FC = totalFC r.fcs) :
    initial_params nmodels binRefls =
      (spec_initial_D binRefls :: List.replicate (nmodels - 1) 1,
        spec_initial_S binRefls) := by
  have hmap : binRefls.map (fun r => Complex.abs r.FC) =
      binRefls.map (fun r => Complex.abs (totalFC r.fcs)) :=
    List.map_congr_left (fun r hr => by rw [hFC r hr])
  have hD : initial_D binRefls = spec_initial_D binRefls := by
    rw [initial_D, spec_initial_D, hmap]
  have hS : initial_S binRefls = spec_initial_S binRefls := by
    rw [initial_S, spec_initial_S]
    congr 1
    apply List.map_congr_left
    intro r hr
    rw [hFC r hr, hD]
  rw [initial_params, hD, hS]

/-- A two-reflection bin separating |Fc₀| from |ΣFcₖ|: the FC column is
the total (0 resp. 1) as `main` computes it, while |Fc₀| is 2 resp. 1. -/
def exBin5 : List Refl :=
  [Refl.mk 0 1 1 false [2, -2] 0, Refl.mk 1 1 1 false [1, 0] 1]

theorem C5_witness :
    initial_params 3 exBin5 =
      (spec_initial_D exBin5 :: List.replicate 2 1, spec_initial_S exBin5) :=
  C5_initial_params_use_total_FC 3 exBin5 (by
    intro r hr
    rcases List.mem_cons.mp hr with h | h
    · subst h; simp [totalFC]
    · rcases List.mem_cons.mp h with h2 | h2
      · subst h2; simp [totalFC]
      · simp at h2)

theorem corrcoef_exBin5_code : corrcoef [0, 1] [0, 1] = 1 := by
  have hm : lmean [0, 1] = 1/2 := by norm_num [lmean]
  simp only [corrcoef, hm, List.zipWith, List.map]
  norm_num
  rw [← mul_inv, Real.mul_self_sqrt (by norm_num)]
  norm_num

theorem corrcoef_exBin5_claim : corrcoef [0, 1] [2, 1] = -1 := by
  have hm1 : lmean [0, 1] = 1/2 := by norm_num [lmean]
  have hm2 : lmean [2, 1] = 3/2 := by norm_num [lmean]
  simp only [corrcoef, hm1, hm2, List.zipWith, List.map]
  norm_num
  rw [← mul_inv, Real.mul_self_sqrt (by norm_num)]
  norm_num

theorem C5_counterexample :
    initial_D exBin5 ≠
      corrcoef (exBin5.map (fun r => |r.FP|))
        (exBin5.map (fun r => Complex.abs (r.fcs.getD 0 0))) := by
  have h1 : initial_D exBin5 = 1 := by
    have ha : (exBin5.map (fun r => r.FP)) = [0, 1] := by simp [exBin5]
    have hb : (exBin5.map (fun r => Complex.abs r.FC)) = [0, 1] := by simp [exBin5]
    rw [initial_D, ha, hb, corrcoef_exBin5_code]
  have h2 : (exBin5.map (fun r => |r.FP|)) = [0, 1] := by
    simp [exBin5]
  have h3 : (exBin5.map (fun r => Complex.abs (r.fcs.getD 0 0))) = [2, 1] := by
    simp [exBin5]
  rw [h1, h2, h3, corrcoef_exBin5_claim]
  norm_num

/-! ## Per-bin optimisation control flow (determine_mlf_params,
sigmaa.py lines 200-231) and claim C6 -/

/-- The per-bin body of `determine_mlf_params` (sigmaa.py lines 200-231),
with `scipy.optimize.minimize` abstracted as the argument `minimize`
(taking the target, its gradient and the start vector).  The source
unconditionally builds `x0 = Ds + [S]`, calls the optimizer and stores
`res.x[:-1]` as the D's and `res.x[-1]` as S; it contains no bin-size
check and no warning path, so the warning list is always empty. -/
def determine_mlf_params_bin
    (minimize : (List ℝ → ℝ) → (List ℝ → List ℝ) → List ℝ → List ℝ)
    (binRefls : List Refl) (Ds : List ℝ) (S : ℝ) : (List ℝ × ℝ) × List String :=
  let x0 := Ds ++ [S];
  let target := fun x : List ℝ => mlf binRefls x.dropLast (x.getLastD 0);
  let grad := fun x : List ℝ => deriv_mlf_wrt_D_S binRefls x.dropLast (x.getLastD 0);
  let res := minimize target grad x0;
  ((res.dropLast, res.getLastD 0), [])

/-- C6, amended.  Bins with fewer than 3 reflections are NOT
special-cased: the estimator invokes the optimizer on every bin and
stores its result, and it never emits a warning. -/
theorem C6_small_bins_still_optimized
    (minimize : (List ℝ → ℝ) → (List ℝ → List ℝ) → List ℝ → List ℝ)
    (binRefls : List Refl) (Ds : List ℝ) (S : ℝ)
    (hsmall : binRefls.length < 3) :
    determine_mlf_params_bin minimize binRefls Ds S =
      (((minimize (fun x => mlf binRefls x.dropLast (x.getLastD 0))
          (fun x => deriv_mlf_wrt_D_S binRefls x.dropLast (x.getLastD 0))
          (Ds ++ [S])).dropLast,
        (minimize (fun x => mlf binRefls x.dropLast (x.getLastD 0))
          (fun x => deriv_mlf_wrt_D_S binRefls x.dropLast (x.getLastD 0))
          (Ds ++ [S])).getLastD 0), []) := rfl

/-- A two-reflection (< 3) bin for exercising the estimator. -/
def exBin6 : List Refl :=
  [Refl.mk 1 1 1 false [1] 1, Refl.mk 2 1 1 true [1] 1]

theorem C6_witness :
    determine_mlf_params_bin (fun _ _ _ => [5, 7]) exBin6 [1] 10000 =
      ((((fun (_ : List ℝ → ℝ) (_ : List ℝ → List ℝ) (_ : List ℝ) =>
            ([5, 7] : List ℝ))
          (fun x => mlf exBin6 x.dropLast (x.getLastD 0))
          (fun x => deriv_mlf_wrt_D_S exBin6 x.dropLast (x.getLastD 0))
          (([1] : List ℝ) ++ [10000])).dropLast,
        ((fun (_ : List ℝ → ℝ) (_ : List ℝ → List ℝ) (_ : List ℝ) =>
            ([5, 7] : List ℝ))
          (fun x => mlf exBin6 x.dropLast (x.getLastD 0))
          (fun x => deriv_mlf_wrt_D_S exBin6 x.dropLast (x.getLastD 0))
          (([1] : List ℝ) ++ [10000])).getLastD 0), []) :=
  C6_small_bins_still_optimized (fun _ _ _ => [5, 7]) exBin6 [1] 10000 (by simp [exBin6])

theorem C6_counterexample :
    (determine_mlf_params_bin (fun _ _ _ => [5, 7]) exBin6 [1] 10000).1 = ([5], 7) ∧
    (determine_mlf_params_bin (fun _ _ _ => [5, 7]) exBin6 [1] 10000).2 = [] ∧
    (([5], (7 : ℝ)) : List ℝ × ℝ) ≠ (([1], 10000) : List ℝ × ℝ) := by
  refine ⟨rfl, rfl, ?_⟩
  intro h
  have h2 := congrArg Prod.snd h
  norm_num at h2

/-! ## Input model consistency (main, sigmaa.py lines 258-264) and claim C7 -/

/-- A minimal model of a `gemmi.Structure` for the consistency check:
the unit-cell parameters (`st.cell.parameters`) and the space group. -/
structure StModel where
  cell : List ℚ
  spacegroup_hm : String
deriving DecidableEq

/-- One iteration of `main`'s model loop (sigmaa.py lines 258-264): a
model whose cell differs from the first model's is reset to it with a
logged warning, then likewise for the space group. -/
def fix_model (st0 st : StModel) : StModel × List String :=
  let p1 := if st.cell ≠ st0.cell
    then (StModel.mk st0.cell st.spacegroup_hm,
      ["WARNING: resetting cell to 1st model."])
    else (st, ([] : List String));
  if p1.1.spacegroup_hm ≠ st0.spacegroup_hm
    then (StModel.mk p1.1.cell st0.spacegroup_hm,
      p1.2 ++ ["WARNING: resetting space group to 1st model."])
    else p1

/-- `main` lines 258-264 over the whole model list.  The result is
wrapped in `Except` to record fatality: this stage has no raise/abort,
so it always returns `.ok` with the fixed models and the warnings. -/
def check_model_consistency (sts : List StModel) :
    Except String (List StModel × List String) :=
  match sts with
  | [] => .ok ([], [])
  | st0 :: rest =>
    let fixed := rest.map (fix_model st0);
    .ok (st0 :: fixed.map Prod.fst, (fixed.map Prod.snd).join)

theorem fix_model_agrees (st0 st : StModel) :
    (fix_model st0 st).1.cell = st0.cell ∧
      (fix_model st0 st).1.spacegroup_hm = st0.spacegroup_hm := by
  by_cases h1 : st.cell = st0.cell <;> by_cases h2 : st.spacegroup_hm = st0.spacegroup_hm <;>
    simp [fix_model, h1, h2]

theorem fix_model_warns (st0 st : StModel)
    (h : st.cell ≠ st0.cell ∨ st.spacegroup_hm ≠ st0.spacegroup_hm) :
    (fix_model st0 st).2 ≠ [] := by
  by_cases h1 : st.cell = st0.cell <;> by_cases h2 : st.spacegroup_hm = st0.spacegroup_hm <;>
    simp [fix_model, h1, h2] at h ⊢

/-- C7, amended.  Inconsistent unit cells or space groups among the
input models do NOT abort the run: the stage always returns normally
(`.ok`), resets every mismatching model to the first model's cell and
space group (so afterwards all models agree with the first), and logs
at least one warning whenever a mismatch was present. -/
theorem C7_mismatch_warns_and_resets (st0 : StModel) (rest : List StModel)
    (hmis : ∃ st ∈ rest, st.cell ≠ st0.cell ∨ st.spacegroup_hm ≠ st0.spacegroup_hm) :
    ∃ ms ws, check_model_consistency (st0 :: rest) = .ok (ms, ws) ∧
      (∀ m ∈ ms, m.cell = st0.cell ∧ m.spacegroup_hm = st0.spacegroup_hm) ∧
      ws ≠ [] := by
  refine ⟨st0 :: (rest.map (fix_model st0)).map Prod.fst,
    ((rest.map (fix_model st0)).map Prod.snd).join, rfl, ?_, ?_⟩
  · intro m hm
    rcases List.mem_cons.mp hm with h | h
    · subst h; exact ⟨rfl, rfl⟩
    · rw [List.map_map] at h
      rcases List.mem_map.mp h with ⟨st, _, hst⟩
      rw [← hst]
      exact fix_model_agrees st0 st
  · rcases hmis with ⟨st, hst, hne⟩
    intro hnil
    have hmem : (fix_model st0 st).2 ∈ (rest.map (fix_model st0)).map Prod.snd := by
      rw [List.map_map]
      exact List.mem_map.mpr ⟨st, hst, rfl⟩
    rw [List.join_eq_nil_iff] at hnil
    exact fix_model_warns st0 st hne (hnil _ hmem)

def exSt1 : StModel := StModel.mk [1, 1, 1] "P 1"

def exSt2 : StModel := StModel.mk [2, 1, 1] "P 1"

theorem C7_witness :
    ∃ ms ws, check_model_consistency [exSt1, exSt2] = .ok (ms, ws) ∧
      (∀ m ∈ ms, m.cell = exSt1.cell ∧ m.spacegroup_hm = exSt1.spacegroup_hm) ∧
      ws ≠ [] :=
  C7_mismatch_warns_and_resets exSt1 [exSt2]
    ⟨exSt2, List.mem_singleton.mpr rfl, Or.inl (by decide)⟩

theorem C7_counterexample :
    check_model_consistency [exSt1, exSt2] =
      .ok ([exSt1, StModel.mk [1, 1, 1] "P 1"],
        ["WARNING: resetting cell to 1st model."]) := by
  simp only [check_model_consistency, exSt1, exSt2, List.map_cons, List.map_nil]
  norm_num [fix_model]

/-! ## Claim C2: the analytic gradients are exact derivatives.
List bookkeeping lemmas first. -/

theorem getD_map_append {l : List (ℝ × ℝ)} {g : ℝ × ℝ → ℝ} {x : ℝ} {j : ℕ}
    (hj : j < l.length) :
    ((l.map g) ++ [x]).getD j 0 = g (l.getD j (0, 0)) := by
  rw [List.getD_eq_getElem?_getD, List.getElem?_append_left (by simpa using hj),
    List.getElem?_map, List.getD_eq_getElem?_getD, List.getElem?_eq_getElem hj]
  simp

theorem getD_map_append_last {l : List (ℝ × ℝ)} {g : ℝ × ℝ → ℝ} {x : ℝ} :
    ((l.map g) ++ [x]).getD l.length 0 = x := by
  rw [List.getD_eq_getElem?_getD, List.getElem?_append_right (by simp)]
  simp

theorem getD_map_range {h : ℕ → ℝ × ℝ} {n j : ℕ} (hj : j < n) :
    ((List.range n).map h).getD j (0, 0) = h j := by
  rw [List.getD_eq_getElem?_getD, List.getElem?_map, List.getElem?_range hj]
  simp

theorem getD_map_range_real {f : ℕ → ℝ} {n j : ℕ} (hj : j < n) :
    ((List.range n).map f).getD j 0 = f j := by
  rw [List.getD_eq_getElem?_getD, List.getElem?_map, List.getElem?_range hj]
  simp

theorem headD_set_zero (l : List ℝ) (t : ℝ) (h : l ≠ []) : (l.set 0 t).headD 0 = t := by
  cases l with
  | nil => simp at h
  | cons a l => rfl

theorem tail_set_zero (l : List ℝ) (t : ℝ) : (l.set 0 t).tail = l.tail := by
  cases l <;> rfl

theorem headD_set_succ (l : List ℝ) (j : ℕ) (t : ℝ) :
    (l.set (j + 1) t).headD 0 = l.headD 0 := by
  cases l <;> rfl

theorem tail_set_succ (l : List ℝ) (j : ℕ) (t : ℝ) :
    (l.set (j + 1) t).tail = l.tail.set j t := by
  cases l <;> rfl

theorem set_getD_self (l : List ℝ) (j : ℕ) (hj : j < l.length) :
    l.set j (l.getD j 0) = l := by
  induction l generalizing j with
  | nil => simp at hj
  | cons a l ih =>
    cases j with
    | zero => rfl
    | succ j => simp only [List.set, List.getD_cons_succ]; rw [ih j (by simpa using hj)]

theorem tail_getD (l : List ℂ) (j : ℕ) (d : ℂ) : l.tail.getD j d = l.getD (j + 1) d := by
  cases l <;> rfl

theorem getD_zero_headD (l : List ℝ) : l.getD 0 0 = l.headD 0 := by
  cases l <;> rfl

theorem zipsum_set (l : List ℝ) (m : List ℂ) (j : ℕ) (t : ℝ)
    (hjl : j < l.length) (hjm : j < m.length) :
    (List.zipWith (fun (d : ℝ) (f : ℂ) => (d : ℂ) * f) (l.set j t) m).sum =
      (List.zipWith (fun (d : ℝ) (f : ℂ) => (d : ℂ) * f) (l.set j 0) m).sum +
        (t : ℂ) * m.getD j 0 := by
  induction j generalizing l m with
  | zero =>
    cases l with
    | nil => simp at hjl
    | cons a l =>
      cases m with
      | nil => simp at hjm
      | cons b m =>
        simp [List.zipWith]
        ring
  | succ j ih =>
    cases l with
    | nil => simp at hjl
    | cons a l =>
      cases m with
      | nil => simp at hjm
      | cons b m =>
        simp only [List.set, List.zipWith, List.sum_cons, List.getD_cons_succ]
        rw [ih l m (by simpa using hjl) (by simpa using hjm)]
        ring

theorem calc_sum_Fc_set_zero (Ds : List ℝ) (fcs : List ℂ) (t : ℝ) :
    calc_sum_Fc (Ds.set 0 t) fcs = calc_sum_Fc Ds fcs := by
  unfold calc_sum_Fc
  rw [tail_set_zero]

theorem calc_sum_Fc_set_succ (Ds : List ℝ) (fcs : List ℂ) (j : ℕ) (t : ℝ)
    (hj : j + 1 < Ds.length) (hlen : fcs.length = Ds.length) :
    calc_sum_Fc (Ds.set (j + 1) t) fcs =
      calc_sum_Fc (Ds.set (j + 1) 0) fcs + (t : ℂ) * fcs.getD (j + 1) 0 := by
  unfold calc_sum_Fc
  rw [tail_set_succ, tail_set_succ]
  have hjl : j < Ds.tail.length := by
    rw [List.length_tail]
    omega
  have hjm : j < fcs.tail.length := by
    rw [List.length_tail, hlen]
    omega
  rw [zipsum_set Ds.tail fcs.tail j t hjl hjm, tail_getD]
  ring

theorem hasDerivAt_normSq_affine (C B : ℂ) (t : ℝ) :
    HasDerivAt (fun u : ℝ => Complex.normSq (C + (u : ℝ) * B))
      (2 * (B * (starRingEnd ℂ) (C + (t : ℝ) * B)).re) t := by
  have hfn : ∀ u : ℝ, Complex.normSq (C + (u : ℝ) * B)
      = (C.re + u * B.re) ^ 2 + (C.im + u * B.im) ^ 2 := by
    intro u
    simp only [Complex.normSq_apply, Complex.add_re, Complex.add_im, Complex.mul_re,
      Complex.mul_im, Complex.ofReal_re, Complex.ofReal_im]
    ring
  have ha : HasDerivAt (fun u : ℝ => C.re + u * B.re) B.re t := by
    simpa using ((hasDerivAt_id t).mul_const B.re).const_add C.re
  have hb : HasDerivAt (fun u : ℝ => C.im + u * B.im) B.im t := by
    simpa using ((hasDerivAt_id t).mul_const B.im).const_add C.im
  have h1 := (ha.pow 2).add (hb.pow 2)
  simp only [hfn]
  convert h1 using 1
  simp only [Complex.mul_re, Complex.conj_re, Complex.conj_im, Complex.add_re,
    Complex.add_im, Complex.mul_im, Complex.ofReal_re, Complex.ofReal_im]
  ring

theorem hasDerivAt_abs_affine (C B : ℂ) (t : ℝ) (hz : C + (t : ℝ) * B ≠ 0) :
    HasDerivAt (fun u : ℝ => Complex.abs (C + (u : ℝ) * B))
      ((B * (starRingEnd ℂ) (C + (t : ℝ) * B)).re / Complex.abs (C + (t : ℝ) * B)) t := by
  have hns : Complex.normSq (C + (t : ℝ) * B) ≠ 0 := by
    simpa [Complex.normSq_eq_zero] using hz
  have h := (Real.hasDerivAt_sqrt hns).comp t (hasDerivAt_normSq_affine C B t)
  have hfn : ∀ u : ℝ, Complex.abs (C + (u : ℝ) * B)
      = Real.sqrt (Complex.normSq (C + (u : ℝ) * B)) := by
    intro u
    rw [Complex.abs_apply]
  have hpos : 0 < Real.sqrt (Complex.normSq (C + (t : ℝ) * B)) :=
    Real.sqrt_pos.mpr (lt_of_le_of_ne (Complex.normSq_nonneg _) (Ne.symm hns))
  simp only [hfn]
  convert h using 1
  field_simp
  ring

theorem hasDerivAt_log_cosh (x : ℝ) : HasDerivAt log_cosh (Real.tanh x) x := by
  have h := (Real.hasDerivAt_log (Real.cosh_pos x).ne').comp x (Real.hasDerivAt_cosh x)
  have hfn : log_cosh = fun y => Real.log (Real.cosh y) := rfl
  rw [hfn]
  convert h using 1
  rw [Real.tanh_eq_sinh_div_cosh]
  ring

theorem hasDerivAt_loss_acentric_chain
    (logI0 i1i0 : ℝ → ℝ) (hder : ∀ x, HasDerivAt logI0 (i1i0 x) x)
    (K Fo Sigma : ℝ) (w : ℝ → ℝ) (dw sq t : ℝ) (hw : HasDerivAt w dw t)
    (hsq : sq = 2 * w t * dw) :
    HasDerivAt (fun u => -(K - (Fo ^ 2 + w u ^ 2) / Sigma + logI0 (2 * Fo * w u / Sigma)))
      (-(-sq / Sigma + i1i0 (2 * Fo * w t / Sigma) * 2 * Fo * dw / Sigma)) t := by
  have h1 : HasDerivAt (fun u => w u ^ 2) (2 * w t * dw) t := by
    have h := hw.pow 2
    norm_num at h
    convert h using 1
  have h2 : HasDerivAt (fun u => (Fo ^ 2 + w u ^ 2) / Sigma) ((2 * w t * dw) / Sigma) t :=
    (h1.const_add (Fo ^ 2)).div_const Sigma
  have h3 : HasDerivAt (fun u => 2 * Fo * w u / Sigma) (2 * Fo * dw / Sigma) t := by
    have h := (hw.const_mul (2 * Fo)).div_const Sigma
    convert h using 1
  have h4 : HasDerivAt (fun u => logI0 (2 * Fo * w u / Sigma))
      (i1i0 (2 * Fo * w t / Sigma) * (2 * Fo * dw / Sigma)) t := (hder _).comp t h3
  have h5 := (((hasDerivAt_const t K).sub h2).add h4).neg
  convert h5 using 1
  rw [hsq]
  ring

theorem hasDerivAt_loss_centric_chain
    (K Fo Sigma : ℝ) (w : ℝ → ℝ) (dw sq t : ℝ) (hw : HasDerivAt w dw t)
    (hsq : sq = 2 * w t * dw) :
    HasDerivAt (fun u => -(K - 0.5 * (Fo ^ 2 + w u ^ 2) / Sigma
        + log_cosh (Fo * w u / Sigma)))
      (-(-0.5 * sq / Sigma + Real.tanh (Fo * w t / Sigma) * Fo * dw / Sigma)) t := by
  have h1 : HasDerivAt (fun u => w u ^ 2) (2 * w t * dw) t := by
    have h := hw.pow 2
    norm_num at h
    convert h using 1
  have h2 : HasDerivAt (fun u => 0.5 * (Fo ^ 2 + w u ^ 2) / Sigma)
      (0.5 * (2 * w t * dw) / Sigma) t := by
    have h := ((h1.const_add (Fo ^ 2)).const_mul 0.5).div_const Sigma
    convert h using 1
  have h3 : HasDerivAt (fun u => Fo * w u / Sigma) (Fo * dw / Sigma) t := by
    have h := (hw.const_mul Fo).div_const Sigma
    convert h using 1
  have h4 : HasDerivAt (fun u => log_cosh (Fo * w u / Sigma))
      (Real.tanh (Fo * w t / Sigma) * (Fo * dw / Sigma)) t :=
    (hasDerivAt_log_cosh _).comp t h3
  have h5 := (((hasDerivAt_const t K).sub h2).add h4).neg
  convert h5 using 1
  rw [hsq]
  ring

theorem hasDerivAt_loss_acentric_S
    (logI0 i1i0 : ℝ → ℝ) (hder : ∀ x, HasDerivAt logI0 (i1i0 x) x)
    (K2 Fo DFc varFo eps S : ℝ) (hS : 2 * varFo + eps * S ≠ 0) :
    HasDerivAt (fun s => -(K2 - Real.log (2 * varFo + eps * s)
        - (Fo ^ 2 + DFc ^ 2) / (2 * varFo + eps * s)
        + logI0 (2 * Fo * DFc / (2 * varFo + eps * s))))
      (-((-1 / (2 * varFo + eps * S) +
        (Fo ^ 2 + DFc ^ 2 - i1i0 (2 * Fo * DFc / (2 * varFo + eps * S)) * 2 * Fo * DFc)
          / (2 * varFo + eps * S) ^ 2) * eps)) S := by
  have hSig : HasDerivAt (fun s : ℝ => 2 * varFo + eps * s) eps S := by
    simpa using ((hasDerivAt_id S).const_mul eps).const_add (2 * varFo)
  have hlog : HasDerivAt (fun s => Real.log (2 * varFo + eps * s))
      ((2 * varFo + eps * S)⁻¹ * eps) S := (Real.hasDerivAt_log hS).comp S hSig
  have hX : HasDerivAt (fun s => (Fo ^ 2 + DFc ^ 2) / (2 * varFo + eps * s))
      ((0 * (2 * varFo + eps * S) - (Fo ^ 2 + DFc ^ 2) * eps) / (2 * varFo + eps * S) ^ 2)
      S := (hasDerivAt_const S (Fo ^ 2 + DFc ^ 2)).div hSig hS
  have hArg : HasDerivAt (fun s => 2 * Fo * DFc / (2 * varFo + eps * s))
      ((0 * (2 * varFo + eps * S) - 2 * Fo * DFc * eps) / (2 * varFo + eps * S) ^ 2)
      S := (hasDerivAt_const S (2 * Fo * DFc)).div hSig hS
  have hY := (hder _).comp S hArg
  have h5 := ((((hasDerivAt_const S K2).sub hlog).sub hX).add hY).neg
  convert h5 using 1
  field_simp
  ring

theorem hasDerivAt_loss_centric_S
    (Fo DFc varFo eps S : ℝ) (hS : varFo + eps * S ≠ 0) :
    HasDerivAt (fun s => -(0.5 * (Real.log (2 / Real.pi) - Real.log (varFo + eps * s))
        - 0.5 * (Fo ^ 2 + DFc ^ 2) / (varFo + eps * s)
        + log_cosh (Fo * DFc / (varFo + eps * s))))
      (-((-0.5 / (varFo + eps * S) +
        (0.5 * (Fo ^ 2 + DFc ^ 2) -
          Real.tanh (Fo * DFc / (varFo + eps * S)) * Fo * DFc)
          / (varFo + eps * S) ^ 2) * eps)) S := by
  have hSig : HasDerivAt (fun s : ℝ => varFo + eps * s) eps S := by
    simpa using ((hasDerivAt_id S).const_mul eps).const_add varFo
  have hlog : HasDerivAt (fun s => Real.log (varFo + eps * s))
      ((varFo + eps * S)⁻¹ * eps) S := (Real.hasDerivAt_log hS).comp S hSig
  have hK : HasDerivAt (fun s => 0.5 * (Real.log (2 / Real.pi) - Real.log (varFo + eps * s)))
      (0.5 * (0 - (varFo + eps * S)⁻¹ * eps)) S :=
    (((hasDerivAt_const S (Real.log (2 / Real.pi))).sub hlog).const_mul 0.5)
  have hX : HasDerivAt (fun s => 0.5 * (Fo ^ 2 + DFc ^ 2) / (varFo + eps * s))
      ((0 * (varFo + eps * S) - 0.5 * (Fo ^ 2 + DFc ^ 2) * eps) / (varFo + eps * S) ^ 2)
      S := (hasDerivAt_const S (0.5 * (Fo ^ 2 + DFc ^ 2))).div hSig hS
  have hArg : HasDerivAt (fun s => Fo * DFc / (varFo + eps * s))
      ((0 * (varFo + eps * S) - Fo * DFc * eps) / (varFo + eps * S) ^ 2)
      S := (hasDerivAt_const S (Fo * DFc)).div hSig hS
  have hY := (hasDerivAt_log_cosh _).comp S hArg
  have h5 := (((hK.sub hX).add hY).neg)
  convert h5 using 1
  field_simp
  ring

theorem deriv_DFc2_length (Ds : List ℝ) (fcs : List ℂ) (hne : Ds ≠ []) :
    (deriv_DFc2_and_DFc_dDj Ds fcs).length = Ds.length := by
  have h := List.length_pos.mpr hne
  unfold deriv_DFc2_and_DFc_dDj
  simp
  omega

theorem deriv_DFc2_headD (Ds : List ℝ) (fcs : List ℂ) :
    (deriv_DFc2_and_DFc_dDj Ds fcs).headD (0, 0) =
      (2 * Ds.headD 0 * (Complex.abs (calc_sum_Fc Ds fcs)) ^ 2,
        Complex.abs (calc_sum_Fc Ds fcs)) := rfl

theorem deriv_DFc2_getD_zero (Ds : List ℝ) (fcs : List ℂ) :
    (deriv_DFc2_and_DFc_dDj Ds fcs).getD 0 (0, 0) =
      (2 * Ds.headD 0 * (Complex.abs (calc_sum_Fc Ds fcs)) ^ 2,
        Complex.abs (calc_sum_Fc Ds fcs)) := rfl

theorem deriv_DFc2_getD_succ (Ds : List ℝ) (fcs : List ℂ) (j : ℕ)
    (hj : j + 1 < Ds.length) :
    (deriv_DFc2_and_DFc_dDj Ds fcs).getD (j + 1) (0, 0) =
      ((Ds.headD 0) ^ 2 *
          (2 * (fcs.getD (j + 1) 0 * (starRingEnd ℂ) (calc_sum_Fc Ds fcs)).re),
        Ds.headD 0 * 0.5 / Complex.abs (calc_sum_Fc Ds fcs) *
          (2 * (fcs.getD (j + 1) 0 * (starRingEnd ℂ) (calc_sum_Fc Ds fcs)).re)) := by
  unfold deriv_DFc2_and_DFc_dDj
  simp only [List.getD_cons_succ]
  rw [getD_map_range (by omega)]

theorem deriv_mlf_acentricG_getD_D (i1i0 : ℝ → ℝ) (Fo varFo : ℝ) (fcs : List ℂ)
    (Ds : List ℝ) (S eps : ℝ) (hne : Ds ≠ []) (j : ℕ) (hj : j < Ds.length) :
    (deriv_mlf_acentricG i1i0 Fo varFo fcs Ds S eps).getD j 0 =
      -(-((deriv_DFc2_and_DFc_dDj Ds fcs).getD j (0, 0)).1 / (2 * varFo + eps * S) +
        i1i0 (2 * Fo * (Ds.headD 0 * Complex.abs (calc_sum_Fc Ds fcs))
            / (2 * varFo + eps * S)) * 2 * Fo *
          ((deriv_DFc2_and_DFc_dDj Ds fcs).getD j (0, 0)).2 / (2 * varFo + eps * S)) := by
  unfold deriv_mlf_acentricG
  rw [getD_map_append (by rw [deriv_DFc2_length Ds fcs hne]; exact hj),
    deriv_DFc2_headD]

theorem deriv_mlf_acentricG_getD_S (i1i0 : ℝ → ℝ) (Fo varFo : ℝ) (fcs : List ℂ)
    (Ds : List ℝ) (S eps : ℝ) (hne : Ds ≠ []) :
    (deriv_mlf_acentricG i1i0 Fo varFo fcs Ds S eps).getD Ds.length 0 =
      -((-1 / (2 * varFo + eps * S) +
        (Fo ^ 2 + (Ds.headD 0 * Complex.abs (calc_sum_Fc Ds fcs)) ^ 2 -
          i1i0 (2 * Fo * (Ds.headD 0 * Complex.abs (calc_sum_Fc Ds fcs))
              / (2 * varFo + eps * S)) * 2 * Fo *
            (Ds.headD 0 * Complex.abs (calc_sum_Fc Ds fcs))) / (2 * varFo + eps * S) ^ 2)
        * eps) := by
  unfold deriv_mlf_acentricG
  rw [show Ds.length = (deriv_DFc2_and_DFc_dDj Ds fcs).length from
    (deriv_DFc2_length Ds fcs hne).symm]
  rw [getD_map_append_last, deriv_DFc2_headD]

theorem deriv_mlf_centric_getD_D (Fo varFo : ℝ) (fcs : List ℂ)
    (Ds : List ℝ) (S eps : ℝ) (hne : Ds ≠ []) (j : ℕ) (hj : j < Ds.length) :
    (deriv_mlf_centric Fo varFo fcs Ds S eps).getD j 0 =
      -(-0.5 * ((deriv_DFc2_and_DFc_dDj Ds fcs).getD j (0, 0)).1 / (varFo + eps * S) +
        Real.tanh (Fo * (Ds.headD 0 * Complex.abs (calc_sum_Fc Ds fcs))
            / (varFo + eps * S)) * Fo *
          ((deriv_DFc2_and_DFc_dDj Ds fcs).getD j (0, 0)).2 / (varFo + eps * S)) := by
  unfold deriv_mlf_centric
  rw [getD_map_append (by rw [deriv_DFc2_length Ds fcs hne]; exact hj),
    deriv_DFc2_headD]

theorem deriv_mlf_centric_getD_S (Fo varFo : ℝ) (fcs : List ℂ)
    (Ds : List ℝ) (S eps : ℝ) (hne : Ds ≠ []) :
    (deriv_mlf_centric Fo varFo fcs Ds S eps).getD Ds.length 0 =
      -((-0.5 / (varFo + eps * S) +
        (0.5 * (Fo ^ 2 + (Ds.headD 0 * Complex.abs (calc_sum_Fc Ds fcs)) ^ 2) -
          Real.tanh (Fo * (Ds.headD 0 * Complex.abs (calc_sum_Fc Ds fcs))
              / (varFo + eps * S)) * Fo *
            (Ds.headD 0 * Complex.abs (calc_sum_Fc Ds fcs))) / (varFo + eps * S) ^ 2)
        * eps) := by
  unfold deriv_mlf_centric
  rw [show Ds.length = (deriv_DFc2_and_DFc_dDj Ds fcs).length from
    (deriv_DFc2_length Ds fcs hne).symm]
  rw [getD_map_append_last, deriv_DFc2_headD]

theorem hasDerivAt_mlf_acentricG_S (logI0 i1i0 : ℝ → ℝ)
    (hder : ∀ x, HasDerivAt logI0 (i1i0 x) x)
    (Fo varFo : ℝ) (fcs : List ℂ) (Ds : List ℝ) (S eps : ℝ)
    (hne : Ds ≠ []) (hS : 2 * varFo + eps * S ≠ 0) :
    HasDerivAt (fun s => mlf_acentricG logI0 Fo varFo fcs Ds s eps)
      ((deriv_mlf_acentricG i1i0 Fo varFo fcs Ds S eps).getD Ds.length 0) S := by
  have hfun : ∀ s, mlf_acentricG logI0 Fo varFo fcs Ds s eps =
      -((Real.log 2 + Real.log Fo) - Real.log (2 * varFo + eps * s)
        - (Fo ^ 2 + (Ds.headD 0 * Complex.abs (calc_sum_Fc Ds fcs)) ^ 2)
            / (2 * varFo + eps * s)
        + logI0 (2 * Fo * (Ds.headD 0 * Complex.abs (calc_sum_Fc Ds fcs))
            / (2 * varFo + eps * s))) := by
    intro s
    unfold mlf_acentricG calc_abs_sum_Fc
    ring_nf
  simp only [hfun]
  rw [deriv_mlf_acentricG_getD_S i1i0 Fo varFo fcs Ds S eps hne]
  exact hasDerivAt_loss_acentric_S logI0 i1i0 hder (Real.log 2 + Real.log Fo) Fo
    (Ds.headD 0 * Complex.abs (calc_sum_Fc Ds fcs)) varFo eps S hS

theorem hasDerivAt_mlf_centric_S (Fo varFo : ℝ) (fcs : List ℂ) (Ds : List ℝ)
    (S eps : ℝ) (hne : Ds ≠ []) (hS : varFo + eps * S ≠ 0) :
    HasDerivAt (fun s => mlf_centric Fo varFo fcs Ds s eps)
      ((deriv_mlf_centric Fo varFo fcs Ds S eps).getD Ds.length 0) S := by
  have hfun : ∀ s, mlf_centric Fo varFo fcs Ds s eps =
      -(0.5 * (Real.log (2 / Real.pi) - Real.log (varFo + eps * s))
        - 0.5 * (Fo ^ 2 + (Ds.headD 0 * Complex.abs (calc_sum_Fc Ds fcs)) ^ 2)
            / (varFo + eps * s)
        + log_cosh (Fo * (Ds.headD 0 * Complex.abs (calc_sum_Fc Ds fcs))
            / (varFo + eps * s))) := by
    intro s
    unfold mlf_centric calc_abs_sum_Fc
    ring_nf
  simp only [hfun]
  rw [deriv_mlf_centric_getD_S Fo varFo fcs Ds S eps hne]
  exact hasDerivAt_loss_centric_S Fo
    (Ds.headD 0 * Complex.abs (calc_sum_Fc Ds fcs)) varFo eps S hS

theorem hasDerivAt_mlf_acentricG_D (logI0 i1i0 : ℝ → ℝ)
    (hder : ∀ x, HasDerivAt logI0 (i1i0 x) x)
    (Fo varFo : ℝ) (fcs : List ℂ) (Ds : List ℝ) (S eps : ℝ)
    (hne : Ds ≠ []) (hlen : fcs.length = Ds.length)
    (habs : Complex.abs (calc_sum_Fc Ds fcs) ≠ 0)
    (j : ℕ) (hj : j < Ds.length) :
    HasDerivAt (fun u => mlf_acentricG logI0 Fo varFo fcs (Ds.set j u) S eps)
      ((deriv_mlf_acentricG i1i0 Fo varFo fcs Ds S eps).getD j 0) (Ds.getD j 0) := by
  cases j with
  | zero =>
    have hfun : ∀ u, mlf_acentricG logI0 Fo varFo fcs (Ds.set 0 u) S eps =
        -((Real.log 2 + Real.log Fo - Real.log (2 * varFo + eps * S)) -
          (Fo ^ 2 + (u * Complex.abs (calc_sum_Fc Ds fcs)) ^ 2) / (2 * varFo + eps * S) +
          logI0 (2 * Fo * (u * Complex.abs (calc_sum_Fc Ds fcs))
            / (2 * varFo + eps * S))) := by
      intro u
      unfold mlf_acentricG calc_abs_sum_Fc
      rw [headD_set_zero Ds u hne, calc_sum_Fc_set_zero]
    simp only [hfun]
    rw [deriv_mlf_acentricG_getD_D i1i0 Fo varFo fcs Ds S eps hne 0 hj,
      deriv_DFc2_getD_zero, getD_zero_headD]
    have hw : HasDerivAt (fun u : ℝ => u * Complex.abs (calc_sum_Fc Ds fcs))
        (Complex.abs (calc_sum_Fc Ds fcs)) (Ds.headD 0) := by
      simpa using (hasDerivAt_id (Ds.headD 0)).mul_const (Complex.abs (calc_sum_Fc Ds fcs))
    exact hasDerivAt_loss_acentric_chain logI0 i1i0 hder
      (Real.log 2 + Real.log Fo - Real.log (2 * varFo + eps * S)) Fo
      (2 * varFo + eps * S)
      (fun u => u * Complex.abs (calc_sum_Fc Ds fcs))
      (Complex.abs (calc_sum_Fc Ds fcs))
      (2 * Ds.headD 0 * Complex.abs (calc_sum_Fc Ds fcs) ^ 2)
      (Ds.headD 0) hw (by ring)
  | succ j =>
    have hfun : ∀ u, mlf_acentricG logI0 Fo varFo fcs (Ds.set (j + 1) u) S eps =
        -((Real.log 2 + Real.log Fo - Real.log (2 * varFo + eps * S)) -
          (Fo ^ 2 + (Ds.headD 0 * Complex.abs (calc_sum_Fc (Ds.set (j + 1) 0) fcs +
              (u : ℝ) * fcs.getD (j + 1) 0)) ^ 2) / (2 * varFo + eps * S) +
          logI0 (2 * Fo * (Ds.headD 0 * Complex.abs (calc_sum_Fc (Ds.set (j + 1) 0) fcs +
              (u : ℝ) * fcs.getD (j + 1) 0)) / (2 * varFo + eps * S))) := by
      intro u
      unfold mlf_acentricG calc_abs_sum_Fc
      rw [headD_set_succ, calc_sum_Fc_set_succ Ds fcs j u hj hlen]
    simp only [hfun]
    have hCt : calc_sum_Fc (Ds.set (j + 1) 0) fcs +
        ((Ds.getD (j + 1) 0 : ℝ) : ℂ) * fcs.getD (j + 1) 0 = calc_sum_Fc Ds fcs := by
      rw [← calc_sum_Fc_set_succ Ds fcs j (Ds.getD (j + 1) 0) hj hlen,
        set_getD_self Ds (j + 1) hj]
    have hz : calc_sum_Fc (Ds.set (j + 1) 0) fcs +
        ((Ds.getD (j + 1) 0 : ℝ) : ℂ) * fcs.getD (j + 1) 0 ≠ 0 := by
      rw [hCt]
      intro h0
      apply habs
      rw [h0]
      simp
    have hw := (hasDerivAt_abs_affine (calc_sum_Fc (Ds.set (j + 1) 0) fcs)
      (fcs.getD (j + 1) 0) (Ds.getD (j + 1) 0) hz).const_mul (Ds.headD 0)
    rw [hCt] at hw
    have h := hasDerivAt_loss_acentric_chain logI0 i1i0 hder
      (Real.log 2 + Real.log Fo - Real.log (2 * varFo + eps * S)) Fo
      (2 * varFo + eps * S)
      (fun u => Ds.headD 0 * Complex.abs (calc_sum_Fc (Ds.set (j + 1) 0) fcs +
        (u : ℝ) * fcs.getD (j + 1) 0))
      (Ds.headD 0 * ((fcs.getD (j + 1) 0 *
        (starRingEnd ℂ) (calc_sum_Fc Ds fcs)).re / Complex.abs (calc_sum_Fc Ds fcs)))
      ((Ds.headD 0) ^ 2 *
        (2 * (fcs.getD (j + 1) 0 * (starRingEnd ℂ) (calc_sum_Fc Ds fcs)).re))
      (Ds.getD (j + 1) 0) hw ?hsq
    case hsq =>
      show (Ds.headD 0) ^ 2 *
          (2 * (fcs.getD (j + 1) 0 * (starRingEnd ℂ) (calc_sum_Fc Ds fcs)).re) =
        2 * (Ds.headD 0 * Complex.abs (calc_sum_Fc (Ds.set (j + 1) 0) fcs +
            ((Ds.getD (j + 1) 0 : ℝ) : ℂ) * fcs.getD (j + 1) 0)) *
          (Ds.headD 0 * ((fcs.getD (j + 1) 0 *
            (starRingEnd ℂ) (calc_sum_Fc Ds fcs)).re / Complex.abs (calc_sum_Fc Ds fcs)))
      rw [hCt]
      field_simp
      ring
    rw [deriv_mlf_acentricG_getD_D i1i0 Fo varFo fcs Ds S eps hne (j + 1) hj,
      deriv_DFc2_getD_succ Ds fcs j hj]
    have hval : -(-((Ds.headD 0) ^ 2 *
          (2 * (fcs.getD (j + 1) 0 * (starRingEnd ℂ) (calc_sum_Fc Ds fcs)).re))
            / (2 * varFo + eps * S) +
        i1i0 (2 * Fo * (Ds.headD 0 * Complex.abs (calc_sum_Fc Ds fcs))
            / (2 * varFo + eps * S)) * 2 * Fo *
          (Ds.headD 0 * 0.5 / Complex.abs (calc_sum_Fc Ds fcs) *
            (2 * (fcs.getD (j + 1) 0 * (starRingEnd ℂ) (calc_sum_Fc Ds fcs)).re))
            / (2 * varFo + eps * S)) =
        -(-((Ds.headD 0) ^ 2 *
          (2 * (fcs.getD (j + 1) 0 * (starRingEnd ℂ) (calc_sum_Fc Ds fcs)).re))
            / (2 * varFo + eps * S) +
        i1i0 (2 * Fo * (Ds.headD 0 * Complex.abs (calc_sum_Fc (Ds.set (j + 1) 0) fcs +
              ((Ds.getD (j + 1) 0 : ℝ) : ℂ) * fcs.getD (j + 1) 0))
            / (2 * varFo + eps * S)) * 2 * Fo *
          (Ds.headD 0 * ((fcs.getD (j + 1) 0 *
            (starRingEnd ℂ) (calc_sum_Fc Ds fcs)).re / Complex.abs (calc_sum_Fc Ds fcs)))
            / (2 * varFo + eps * S)) := by
      rw [hCt]
      field_simp
      ring
    rw [hval]
    exact h

theorem hasDerivAt_mlf_centric_D (Fo varFo : ℝ) (fcs : List ℂ) (Ds : List ℝ)
    (S eps : ℝ) (hne : Ds ≠ []) (hlen : fcs.length = Ds.length)
    (habs : Complex.abs (calc_sum_Fc Ds fcs) ≠ 0)
    (j : ℕ) (hj : j < Ds.length) :
    HasDerivAt (fun u => mlf_centric Fo varFo fcs (Ds.set j u) S eps)
      ((deriv_mlf_centric Fo varFo fcs Ds S eps).getD j 0) (Ds.getD j 0) := by
  cases j with
  | zero =>
    have hfun : ∀ u, mlf_centric Fo varFo fcs (Ds.set 0 u) S eps =
        -(0.5 * (Real.log (2 / Real.pi) - Real.log (varFo + eps * S)) -
          0.5 * (Fo ^ 2 + (u * Complex.abs (calc_sum_Fc Ds fcs)) ^ 2) / (varFo + eps * S) +
          log_cosh (Fo * (u * Complex.abs (calc_sum_Fc Ds fcs)) / (varFo + eps * S))) := by
      intro u
      unfold mlf_centric calc_abs_sum_Fc
      rw [headD_set_zero Ds u hne, calc_sum_Fc_set_zero]
    simp only [hfun]
    rw [deriv_mlf_centric_getD_D Fo varFo fcs Ds S eps hne 0 hj,
      deriv_DFc2_getD_zero, getD_zero_headD]
    have hw : HasDerivAt (fun u : ℝ => u * Complex.abs (calc_sum_Fc Ds fcs))
        (Complex.abs (calc_sum_Fc Ds fcs)) (Ds.headD 0) := by
      simpa using (hasDerivAt_id (Ds.headD 0)).mul_const (Complex.abs (calc_sum_Fc Ds fcs))
    exact hasDerivAt_loss_centric_chain
      (0.5 * (Real.log (2 / Real.pi) - Real.log (varFo + eps * S))) Fo
      (varFo + eps * S)
      (fun u => u * Complex.abs (calc_sum_Fc Ds fcs))
      (Complex.abs (calc_sum_Fc Ds fcs))
      (2 * Ds.headD 0 * Complex.abs (calc_sum_Fc Ds fcs) ^ 2)
      (Ds.headD 0) hw (by ring)
  | succ j =>
    have hfun : ∀ u, mlf_centric Fo varFo fcs (Ds.set (j + 1) u) S eps =
        -(0.5 * (Real.log (2 / Real.pi) - Real.log (varFo + eps * S)) -
          0.5 * (Fo ^ 2 + (Ds.headD 0 * Complex.abs (calc_sum_Fc (Ds.set (j + 1) 0) fcs +
              (u : ℝ) * fcs.getD (j + 1) 0)) ^ 2) / (varFo + eps * S) +
          log_cosh (Fo * (Ds.headD 0 * Complex.abs (calc_sum_Fc (Ds.set (j + 1) 0) fcs +
              (u : ℝ) * fcs.getD (j + 1) 0)) / (varFo + eps * S))) := by
      intro u
      unfold mlf_centric calc_abs_sum_Fc
      rw [headD_set_succ, calc_sum_Fc_set_succ Ds fcs j u hj hlen]
    simp only [hfun]
    have hCt : calc_sum_Fc (Ds.set (j + 1) 0) fcs +
        ((Ds.getD (j + 1) 0 : ℝ) : ℂ) * fcs.getD (j + 1) 0 = calc_sum_Fc Ds fcs := by
      rw [← calc_sum_Fc_set_succ Ds fcs j (Ds.getD (j + 1) 0) hj hlen,
        set_getD_self Ds (j + 1) hj]
    have hz : calc_sum_Fc (Ds.set (j + 1) 0) fcs +
        ((Ds.getD (j + 1) 0 : ℝ) : ℂ) * fcs.getD (j + 1) 0 ≠ 0 := by
      rw [hCt]
      intro h0
      apply habs
      rw [h0]
      simp
    have hw := (hasDerivAt_abs_affine (calc_sum_Fc (Ds.set (j + 1) 0) fcs)
      (fcs.getD (j + 1) 0) (Ds.getD (j + 1) 0) hz).const_mul (Ds.headD 0)
    rw [hCt] at hw
    have h := hasDerivAt_loss_centric_chain
      (0.5 * (Real.log (2 / Real.pi) - Real.log (varFo + eps * S))) Fo
      (varFo + eps * S)
      (fun u => Ds.headD 0 * Complex.abs (calc_sum_Fc (Ds.set (j + 1) 0) fcs +
        (u : ℝ) * fcs.getD (j + 1) 0))
      (Ds.headD 0 * ((fcs.getD (j + 1) 0 *
        (starRingEnd ℂ) (calc_sum_Fc Ds fcs)).re / Complex.abs (calc_sum_Fc Ds fcs)))
      ((Ds.headD 0) ^ 2 *
        (2 * (fcs.getD (j + 1) 0 * (starRingEnd ℂ) (calc_sum_Fc Ds fcs)).re))
      (Ds.getD (j + 1) 0) hw ?hsq
    case hsq =>
      show (Ds.headD 0) ^ 2 *
          (2 * (fcs.getD (j + 1) 0 * (starRingEnd ℂ) (calc_sum_Fc Ds fcs)).re) =
        2 * (Ds.headD 0 * Complex.abs (calc_sum_Fc (Ds.set (j + 1) 0) fcs +
            ((Ds.getD (j + 1) 0 : ℝ) : ℂ) * fcs.getD (j + 1) 0)) *
          (Ds.headD 0 * ((fcs.getD (j + 1) 0 *
            (starRingEnd ℂ) (calc_sum_Fc Ds fcs)).re / Complex.abs (calc_sum_Fc Ds fcs)))
      rw [hCt]
      field_simp
      ring
    rw [deriv_mlf_centric_getD_D Fo varFo fcs Ds S eps hne (j + 1) hj,
      deriv_DFc2_getD_succ Ds fcs j hj]
    have hval : -(-0.5 * ((Ds.headD 0) ^ 2 *
          (2 * (fcs.getD (j + 1) 0 * (starRingEnd ℂ) (calc_sum_Fc Ds fcs)).re))
            / (varFo + eps * S) +
        Real.tanh (Fo * (Ds.headD 0 * Complex.abs (calc_sum_Fc Ds fcs))
            / (varFo + eps * S)) * Fo *
          (Ds.headD 0 * 0.5 / Complex.abs (calc_sum_Fc Ds fcs) *
            (2 * (fcs.getD (j + 1) 0 * (starRingEnd ℂ) (calc_sum_Fc Ds fcs)).re))
            / (varFo + eps * S)) =
        -(-0.5 * ((Ds.headD 0) ^ 2 *
          (2 * (fcs.getD (j + 1) 0 * (starRingEnd ℂ) (calc_sum_Fc Ds fcs)).re))
            / (varFo + eps * S) +
        Real.tanh (Fo * (Ds.headD 0 * Complex.abs (calc_sum_Fc (Ds.set (j + 1) 0) fcs +
              ((Ds.getD (j + 1) 0 : ℝ) : ℂ) * fcs.getD (j + 1) 0))
            / (varFo + eps * S)) * Fo *
          (Ds.headD 0 * ((fcs.getD (j + 1) 0 *
            (starRingEnd ℂ) (calc_sum_Fc Ds fcs)).re / Complex.abs (calc_sum_Fc Ds fcs)))
            / (varFo + eps * S)) := by
      rw [hCt]
      field_simp
      ring
    rw [hval]
    exact h

theorem hasDerivAt_map_sum (refls : List Refl) (F : Refl → ℝ → ℝ) (G : Refl → ℝ)
    (t : ℝ) (h : ∀ r ∈ refls, HasDerivAt (F r) (G r) t) :
    HasDerivAt (fun u => (refls.map (fun r => F r u)).sum) ((refls.map G).sum) t := by
  induction refls with
  | nil => simpa using hasDerivAt_const t (0 : ℝ)
  | cons a l ih =>
    simp only [List.map_cons, List.sum_cons]
    exact (h a (List.mem_cons_self a l)).add
      (ih (fun r hr => h r (List.mem_cons_of_mem a hr)))

theorem deriv_wrt_acentric_getD (i1i0 : ℝ → ℝ) (refls : List Refl) (Ds : List ℝ)
    (S : ℝ) (j : ℕ) (hj : j < Ds.length + 1) :
    (deriv_mlf_wrt_D_S_acentricG i1i0 refls Ds S).getD j 0 =
      (refls.map (fun r =>
        (deriv_mlf_acentricG i1i0 r.FP (r.SIGFP ^ 2) r.fcs Ds S r.epsilon).getD j 0)).sum := by
  unfold deriv_mlf_wrt_D_S_acentricG
  rw [getD_map_range_real hj]

theorem deriv_wrt_centric_getD (refls : List Refl) (Ds : List ℝ)
    (S : ℝ) (j : ℕ) (hj : j < Ds.length + 1) :
    (deriv_mlf_wrt_D_S_centric refls Ds S).getD j 0 =
      (refls.map (fun r =>
        (deriv_mlf_centric r.FP (r.SIGFP ^ 2) r.fcs Ds S r.epsilon).getD j 0)).sum := by
  unfold deriv_mlf_wrt_D_S_centric
  rw [getD_map_range_real hj]

/-- C2.  On the admissible domain (each reflection's Σ positive for both
classes, |Fc₀ + D₁Fc₁ + …| positive, partial lists of matching length),
the analytic gradient vectors of sigmaa.py are exactly the partial
derivatives of the per-class losses: component j < n differentiates the
loss in Dⱼ (the parameter list updated at position j), and the last
component differentiates in S — for both the acentric and the centric
class.  ln I₀ enters through the hypothesis that i1i0 is its pointwise
derivative, which is the defining property of the gemmi pair
log_bessel_i0 / bessel_i1_over_i0.  Exactness of the derivative is the
strong form of the claim's finite-difference statement. -/
theorem C2_analytic_gradients_are_derivatives (logI0 i1i0 : ℝ → ℝ)
    (hder : ∀ x, HasDerivAt logI0 (i1i0 x) x)
    (refls : List Refl) (Ds : List ℝ) (S : ℝ)
    (hne : Ds ≠ [])
    (hlen : ∀ r ∈ refls, r.fcs.length = Ds.length)
    (hSa : ∀ r ∈ refls, 0 < 2 * r.SIGFP ^ 2 + r.epsilon * S)
    (hSc : ∀ r ∈ refls, 0 < r.SIGFP ^ 2 + r.epsilon * S)
    (habs : ∀ r ∈ refls, 0 < calc_abs_sum_Fc Ds r.fcs) :
    (∀ j, j < Ds.length →
      HasDerivAt (fun t => mlf_bin_acentricG logI0 refls (Ds.set j t) S)
        ((deriv_mlf_wrt_D_S_acentricG i1i0 refls Ds S).getD j 0) (Ds.getD j 0) ∧
      HasDerivAt (fun t => mlf_bin_centric refls (Ds.set j t) S)
        ((deriv_mlf_wrt_D_S_centric refls Ds S).getD j 0) (Ds.getD j 0)) ∧
    HasDerivAt (fun s => mlf_bin_acentricG logI0 refls Ds s)
      ((deriv_mlf_wrt_D_S_acentricG i1i0 refls Ds S).getD Ds.length 0) S ∧
    HasDerivAt (fun s => mlf_bin_centric refls Ds s)
      ((deriv_mlf_wrt_D_S_centric refls Ds S).getD Ds.length 0) S := by
  refine ⟨fun j hj => ⟨?_, ?_⟩, ?_, ?_⟩
  · rw [deriv_wrt_acentric_getD i1i0 refls Ds S j (by omega)]
    unfold mlf_bin_acentricG
    exact hasDerivAt_map_sum refls
      (fun r => fun u => mlf_acentricG logI0 r.FP (r.SIGFP ^ 2) r.fcs (Ds.set j u) S r.epsilon)
      (fun r => (deriv_mlf_acentricG i1i0 r.FP (r.SIGFP ^ 2) r.fcs Ds S r.epsilon).getD j 0)
      (Ds.getD j 0)
      (fun r hr => hasDerivAt_mlf_acentricG_D logI0 i1i0 hder r.FP (r.SIGFP ^ 2) r.fcs
        Ds S r.epsilon hne (hlen r hr) (habs r hr).ne' j hj)
  · rw [deriv_wrt_centric_getD refls Ds S j (by omega)]
    unfold mlf_bin_centric
    exact hasDerivAt_map_sum refls
      (fun r => fun u => mlf_centric r.FP (r.SIGFP ^ 2) r.fcs (Ds.set j u) S r.epsilon)
      (fun r => (deriv_mlf_centric r.FP (r.SIGFP ^ 2) r.fcs Ds S r.epsilon).getD j 0)
      (Ds.getD j 0)
      (fun r hr => hasDerivAt_mlf_centric_D r.FP (r.SIGFP ^ 2) r.fcs
        Ds S r.epsilon hne (hlen r hr) (habs r hr).ne' j hj)
  · rw [deriv_wrt_acentric_getD i1i0 refls Ds S Ds.length (by omega)]
    unfold mlf_bin_acentricG
    exact hasDerivAt_map_sum refls
      (fun r => fun s => mlf_acentricG logI0 r.FP (r.SIGFP ^ 2) r.fcs Ds s r.epsilon)
      (fun r => (deriv_mlf_acentricG i1i0 r.FP (r.SIGFP ^ 2) r.fcs Ds S r.epsilon).getD
        Ds.length 0)
      S
      (fun r hr => hasDerivAt_mlf_acentricG_S logI0 i1i0 hder r.FP (r.SIGFP ^ 2) r.fcs
        Ds S r.epsilon hne (hSa r hr).ne')
  · rw [deriv_wrt_centric_getD refls Ds S Ds.length (by omega)]
    unfold mlf_bin_centric
    exact hasDerivAt_map_sum refls
      (fun r => fun s => mlf_centric r.FP (r.SIGFP ^ 2) r.fcs Ds s r.epsilon)
      (fun r => (deriv_mlf_centric r.FP (r.SIGFP ^ 2) r.fcs Ds S r.epsilon).getD
        Ds.length 0)
      S
      (fun r hr => hasDerivAt_mlf_centric_S r.FP (r.SIGFP ^ 2) r.fcs
        Ds S r.epsilon hne (hSc r hr).ne')

/-- A one-reflection bin with Fc = [1], used to instantiate C2. -/
def exRefl2 : Refl := Refl.mk 1 1 1 false [1] 1

theorem C2_witness :
    (∀ j, j < ([1] : List ℝ).length →
      HasDerivAt
        (fun t => mlf_bin_acentricG (fun x => x) [exRefl2] (([1] : List ℝ).set j t) 1)
        ((deriv_mlf_wrt_D_S_acentricG (fun _ => 1) [exRefl2] [1] 1).getD j 0)
        (([1] : List ℝ).getD j 0) ∧
      HasDerivAt (fun t => mlf_bin_centric [exRefl2] (([1] : List ℝ).set j t) 1)
        ((deriv_mlf_wrt_D_S_centric [exRefl2] [1] 1).getD j 0)
        (([1] : List ℝ).getD j 0)) ∧
    HasDerivAt (fun s => mlf_bin_acentricG (fun x => x) [exRefl2] [1] s)
      ((deriv_mlf_wrt_D_S_acentricG (fun _ => 1) [exRefl2] [1] 1).getD
        ([1] : List ℝ).length 0) 1 ∧
    HasDerivAt (fun s => mlf_bin_centric [exRefl2] [1] s)
      ((deriv_mlf_wrt_D_S_centric [exRefl2] [1] 1).getD ([1] : List ℝ).length 0) 1 :=
  C2_analytic_gradients_are_derivatives (fun x => x) (fun _ => 1)
    (fun x => hasDerivAt_id x) [exRefl2] [1] 1
    (by simp)
    (by intro r hr; rw [List.mem_singleton.mp hr]; rfl)
    (by intro r hr; rw [List.mem_singleton.mp hr]; norm_num [exRefl2])
    (by intro r hr; rw [List.mem_singleton.mp hr]; norm_num [exRefl2])
    (by intro r hr; rw [List.mem_singleton.mp hr]
        norm_num [exRefl2, calc_abs_sum_Fc, calc_sum_Fc])

end Servalcat
